import Mathlib

/- Verification of the rustris playfield engine (src/board.rs, src/game.rs).

   The board grid is modelled as a total function `Nat → Nat → SlotState`;
   only indices `y < 22`, `x < 10` are meaningful (`slots[y][x]` in the
   source).  Rust operations that can panic (out-of-bounds indexing,
   `unwrap` on `None`, the `panic!`-arm of `score_completed_lines`) are
   modelled in the `Option` monad, `none` standing for a panic/abort.
   The file first gives the definitions translated from the source, then
   the theorems settling the claims. -/

/- ------------------------------------------------------------------ -/
/- Definitions                                                        -/
/- ------------------------------------------------------------------ -/

/-- Modelled from the spec: `rustomino.rs` is not under `src/`; the spec
fixes the 7 piece types {I, O, T, S, Z, J, L}. -/
inductive RustominoType where
  | I | O | T | S | Z | J | L
deriving DecidableEq

/-- 2-d integer vector, as `macroquad`'s `IVec2` is used by the source:
`v[0]` is the column (x), `v[1]` the row (y). -/
structure IVec2 where
  x : Int
  y : Int
deriving DecidableEq

instance : Add IVec2 := ⟨fun a b => ⟨a.x + b.x, a.y + b.y⟩⟩

/-- `SlotState` from src/board.rs. -/
inductive SlotState where
  | Empty
  | Occupied (t : RustominoType)
  | Locked (t : RustominoType)
  | Ghost (t : RustominoType)
deriving DecidableEq

/-- `discriminant(slot) == discriminant(&SlotState::Locked(_))`:
variant-tag comparison, the carried type is ignored. -/
def SlotState.isLocked : SlotState → Bool
  | .Locked _ => true
  | _ => false

/-- `discriminant(slot) == discriminant(&SlotState::Occupied(_))`. -/
def SlotState.isOccupied : SlotState → Bool
  | .Occupied _ => true
  | _ => false

/-- `BOARD_SLOTS[0]`: board width in columns. -/
def BOARD_SLOTS_0 : Nat := 10

/-- `BOARD_SLOTS[1]`: board height in rows (20 visible + 2 buffer). -/
def BOARD_SLOTS_1 : Nat := 22

/-- `PLAYFIELD_SIZE[1]`: visible playfield height. -/
def PLAYFIELD_SIZE_1 : Nat := 20

/-- The grid of slot states, `slots[y][x]` with `y < 22`, `x < 10`;
indices outside that range are junk and never relied upon. -/
abbrev Grid := Nat → Nat → SlotState

/-- `check_collision` from src/board.rs: walks the candidate cells in
order; column out of `[0, 10)` or row `< 0` is a wall/floor collision,
otherwise the slot is read and a `Locked` tag is a collision.  Reading
requires `row < 22`: a cell with in-range column and row `≥ 22` makes
the Rust code panic (index out of bounds), modelled as `none`. -/
def check_collision (board_slots : Grid) : List IVec2 → Option Bool
  | [] => some false
  | location :: rest =>
    if location.x < 0 ∨ (BOARD_SLOTS_0 : Int) ≤ location.x then some true
    else if location.y < 0 then some true
    else if (BOARD_SLOTS_1 : Int) ≤ location.y then none
    else if (board_slots location.y.toNat location.x.toNat).isLocked then some true
    else check_collision board_slots rest

/-- Inner loop of `get_complete_lines`: every one of the 10 slots of row
`i` has tag `Locked`. -/
def line_is_complete (g : Grid) (i : Nat) : Bool :=
  (List.range BOARD_SLOTS_0).all fun x => (g i x).isLocked

/-- `RustrisBoard::get_complete_lines` (slot-level): scans all 22 rows in
ascending order and collects the indices of complete rows. -/
def get_complete_lines (g : Grid) : List Nat :=
  (List.range BOARD_SLOTS_1).filter (line_is_complete g)

/-- First loop of `clear_completed_lines`: rows `y < 20` that are in the
completed list are set to all `Empty` (the loop breaks at `y == 20`, so
completed rows in the buffer are not emptied). -/
def clear_lines_phase (completed : List Nat) (g : Grid) : Grid := fun y x =>
  if y < PLAYFIELD_SIZE_1 ∧ y ∈ completed then .Empty else g y x

/-- Second loop of `clear_completed_lines`: rows are skipped while
`y < first_clear_line` and the loop breaks at `y == 20` or
`y + num ≥ 20`; each written row takes the content of the row `num`
rows above it from the pre-clear snapshot `snap`. -/
def compact_phase (first_clear_line num : Nat) (snap g : Grid) : Grid := fun y x =>
  if first_clear_line ≤ y ∧ y + num < PLAYFIELD_SIZE_1 then snap (y + num) x else g y x

/-- `RustrisBoard::clear_completed_lines`, slot-level: the transformation
performed on `self.slots` together with the returned row list.  (The
trailing `update_ghost_rustomino(false)` call is modelled in the
board-level wrapper `RustrisBoard.clear_completed_lines` below; at the
only call site, right after locking, both the current and the ghost
rustomino are `None` and that call leaves the board unchanged.) -/
def clear_completed_lines_slots (g : Grid) : Grid × List Nat :=
  match get_complete_lines g with
  | [] => (g, [])
  | first_clear_line :: rest =>
    let completed := first_clear_line :: rest
    (compact_phase first_clear_line completed.length g (clear_lines_phase completed g),
     completed)

/-- `TranslationDirection` from src/board.rs. -/
inductive TranslationDirection where
  | Left
  | Right
  | Down
deriving DecidableEq

/-- `TranslationDirection::get_translation`. -/
def TranslationDirection.get_translation : TranslationDirection → IVec2
  | .Left => ⟨-1, 0⟩
  | .Right => ⟨1, 0⟩
  | .Down => ⟨0, -1⟩

/-- `TranslationDirection::DOWN_TRANSLATION`. -/
def DOWN_TRANSLATION : IVec2 := ⟨0, -1⟩

/-- Rotation directions, from `rustomino.rs` (not under `src/`). -/
inductive RotationDirection where
  | Cw
  | Ccw
deriving DecidableEq

/-- Modelled from the spec: `rustomino.rs` is not under `src/`.  A piece
is a type, the 4 relative block offsets of the current orientation, and
an integer translation; its absolute cells are `blocks + translation`
(spec §3).  The per-type rotation offset lookup is likewise missing; the
spec only requires `rotated`/`rotate` to be pure and consistent (the
candidate cells `rotated` returns are exactly the cells committed by
`rotate`), which this fixed 90° rotation of the relative offsets
satisfies. -/
structure Rustomino where
  rustomino_type : RustominoType
  blocks : List IVec2
  translation : IVec2
deriving DecidableEq

/-- Modelled from the spec: rotation transform on one relative offset. -/
def rotate_block : RotationDirection → IVec2 → IVec2
  | .Cw, b => ⟨b.y, -b.x⟩
  | .Ccw, b => ⟨-b.y, b.x⟩

/-- `Rustomino::board_slots`: the current 4 absolute cells. -/
def Rustomino.board_slots (r : Rustomino) : List IVec2 :=
  r.blocks.map fun b => b + r.translation

/-- `Rustomino::translated(t)`: the absolute cells after a further
translation `t`, without mutating the piece. -/
def Rustomino.translated (r : Rustomino) (t : IVec2) : List IVec2 :=
  r.blocks.map fun b => b + r.translation + t

/-- `Rustomino::translate(t)`: commit a translation. -/
def Rustomino.translate (r : Rustomino) (t : IVec2) : Rustomino :=
  { r with translation := r.translation + t }

/-- `Rustomino::rotated(direction)`: candidate absolute cells after a
rotation, without mutating the piece. -/
def Rustomino.rotated (r : Rustomino) (d : RotationDirection) : List IVec2 :=
  r.blocks.map fun b => rotate_block d b + r.translation

/-- `Rustomino::rotate(direction)`: commit a rotation. -/
def Rustomino.rotate (r : Rustomino) (d : RotationDirection) : Rustomino :=
  { r with blocks := r.blocks.map (rotate_block d) }

/-- Modelled from the spec: spawn block offsets per type, horizontally
centered with the piece at/above the visible playfield top (spec §4.1);
the exact offsets live in the missing `rustomino.rs`. -/
def spawn_blocks : RustominoType → List IVec2
  | .I => [⟨3, 20⟩, ⟨4, 20⟩, ⟨5, 20⟩, ⟨6, 20⟩]
  | .O => [⟨4, 20⟩, ⟨5, 20⟩, ⟨4, 21⟩, ⟨5, 21⟩]
  | .T => [⟨3, 20⟩, ⟨4, 20⟩, ⟨5, 20⟩, ⟨4, 21⟩]
  | .S => [⟨3, 20⟩, ⟨4, 20⟩, ⟨4, 21⟩, ⟨5, 21⟩]
  | .Z => [⟨4, 21⟩, ⟨3, 21⟩, ⟨4, 20⟩, ⟨5, 20⟩]
  | .J => [⟨3, 21⟩, ⟨3, 20⟩, ⟨4, 20⟩, ⟨5, 20⟩]
  | .L => [⟨5, 21⟩, ⟨3, 20⟩, ⟨4, 20⟩, ⟨5, 20⟩]

/-- Modelled from the spec: `Rustomino::new(type)` at the type's
canonical spawn orientation and anchor. -/
def Rustomino.new (t : RustominoType) : Rustomino :=
  ⟨t, spawn_blocks t, ⟨0, 0⟩⟩

/-- Modelled from the spec: `Rustomino::reset()` returns a copy at the
type's canonical spawn orientation and spawn anchor. -/
def Rustomino.reset (r : Rustomino) : Rustomino :=
  Rustomino.new r.rustomino_type

/-- A cell lies inside the 10×22 grid (indexable without panicking). -/
def in_grid (c : IVec2) : Prop :=
  0 ≤ c.x ∧ c.x < 10 ∧ 0 ≤ c.y ∧ c.y < 22

instance (c : IVec2) : Decidable (in_grid c) := by
  unfold in_grid; infer_instance

/-- Write one slot: `board_slots[slot[1] as usize][slot[0] as usize] =
new_state`; out-of-range indices (negative coordinates wrap to huge
`usize` values) panic, modelled as `none`. -/
def set_one_slot (g : Grid) (c : IVec2) (s : SlotState) : Option Grid :=
  if in_grid c then
    some (fun y x => if y = c.y.toNat ∧ x = c.x.toNat then s else g y x)
  else none

/-- `set_board_slot_states` from src/board.rs: writes `new_state` at each
listed cell in order. -/
def set_board_slot_states (g : Grid) : List IVec2 → SlotState → Option Grid
  | [], _ => some g
  | c :: rest, s => do
    let g' ← set_one_slot g c s
    set_board_slot_states g' rest s

/-- `RustrisBoard` from src/board.rs. -/
structure RustrisBoard where
  slots : Grid
  current_rustomino : Option Rustomino
  ghost_rustomino : Option Rustomino

/-- `RustrisBoard::new()`. -/
def RustrisBoard.new : RustrisBoard :=
  ⟨fun _ _ => .Empty, none, none⟩

/-- `RustrisBoard::ready_for_next`. -/
def RustrisBoard.ready_for_next (b : RustrisBoard) : Bool :=
  b.current_rustomino.isNone

/-- Loop body of `get_hard_drop_translation`: `k` is the magnitude of the
last known non-colliding downward translation; keep extending by one
cell until the next increment collides and return the last translation
that did not collide.  The Rust loop is unbounded (it would diverge if
no downward translation ever collided, which cannot happen for a
non-empty in-grid piece); `fuel` bounds the recursion and is chosen
large enough that it never runs out on the inputs the theorems speak
about. -/
def hard_drop_go (board_slots : Grid) (r : Rustomino) : Nat → Nat → Option IVec2
  | 0, _ => none
  | fuel + 1, k =>
    match check_collision board_slots (r.translated ⟨0, -((k : Int) + 1)⟩) with
    | none => none
    | some true => some ⟨0, -(k : Int)⟩
    | some false => hard_drop_go board_slots r fuel (k + 1)

/-- Fuel bound for `hard_drop_go`: once the downward magnitude exceeds
the smallest row of the piece's cells, some cell is below the floor and
the collision check must return true. -/
def hard_drop_fuel (r : Rustomino) : Nat :=
  match (r.board_slots.map fun c => c.y).min? with
  | some m => m.toNat + 2
  | none => 1

/-- `get_hard_drop_translation` from src/board.rs: if one cell down
already collides the translation is zero, otherwise repeatedly extend
the downward translation until the next increment collides. -/
def get_hard_drop_translation (board_slots : Grid) (r : Rustomino) : Option IVec2 :=
  match check_collision board_slots (r.translated DOWN_TRANSLATION) with
  | none => none
  | some true => some ⟨0, 0⟩
  | some false => hard_drop_go board_slots r (hard_drop_fuel r) 1

/-- `RustrisBoard::can_fall`: false when there is no current rustomino,
otherwise true iff translating one cell down would not collide. -/
def RustrisBoard.can_fall (b : RustrisBoard) : Option Bool :=
  match b.current_rustomino with
  | none => some false
  | some r =>
    match check_collision b.slots (r.translated DOWN_TRANSLATION) with
    | none => none
    | some c => some (!c)

/-- Clearing pass of `update_ghost_rustomino` when `translating`: each of
the old ghost's cells whose tag is not `Occupied` is set to `Empty` (the
slot is read first, so an out-of-grid ghost cell panics). -/
def ghost_clear_pass (g : Grid) : List IVec2 → Option Grid
  | [] => some g
  | c :: rest =>
    if in_grid c then
      if (g c.y.toNat c.x.toNat).isOccupied then ghost_clear_pass g rest
      else ghost_clear_pass
        (fun y x => if y = c.y.toNat ∧ x = c.x.toNat then .Empty else g y x) rest
    else none

/-- Writing pass of `update_ghost_rustomino`: each ghost cell whose tag
is not `Occupied` is set to `Ghost t`. -/
def ghost_write_pass (g : Grid) (t : RustominoType) : List IVec2 → Option Grid
  | [] => some g
  | c :: rest =>
    if in_grid c then
      if (g c.y.toNat c.x.toNat).isOccupied then ghost_write_pass g t rest
      else ghost_write_pass
        (fun y x => if y = c.y.toNat ∧ x = c.x.toNat then SlotState.Ghost t else g y x)
        t rest
    else none

/-- `RustrisBoard::update_ghost_rustomino` from src/board.rs.  With a
current rustomino and a ghost: compute the hard-drop translation from
the current slots, (when `translating`) clear the old ghost cells that
are not `Occupied`, copy the current piece's geometry into the ghost,
apply the drop translation to it, and mark its cells `Ghost` wherever
not `Occupied`.  With no current rustomino: when not translating the old
ghost's cells are cleared to `Empty`; the ghost is discarded. -/
def RustrisBoard.update_ghost_rustomino (b : RustrisBoard) (translating : Bool) :
    Option RustrisBoard :=
  match b.current_rustomino with
  | some cur =>
    match b.ghost_rustomino with
    | some gh => do
      let drop_translation ← get_hard_drop_translation b.slots cur
      let g1 ← if translating then ghost_clear_pass b.slots gh.board_slots
               else some b.slots
      let gh' := Rustomino.translate
        { gh with blocks := cur.blocks, translation := cur.translation }
        drop_translation
      let g2 ← ghost_write_pass g1 gh.rustomino_type gh'.board_slots
      some ⟨g2, some cur, some gh'⟩
    | none => some b
  | none =>
    match b.ghost_rustomino with
    | some gh =>
      if translating then some { b with ghost_rustomino := none }
      else do
        let g' ← set_board_slot_states b.slots gh.board_slots .Empty
        some ⟨g', none, none⟩
    | none => some { b with ghost_rustomino := none }

/-- `RustrisBoard::set_current_rustomino`: remembers whether the cells as
placed collide, writes `Occupied` at the piece's cells unconditionally,
installs the piece as current and as the ghost's start, recomputes the
ghost, and returns the flag (false on collision, game over). -/
def RustrisBoard.set_current_rustomino (b : RustrisBoard) (rustomino : Rustomino) :
    Option (RustrisBoard × Bool) := do
  let coll ← check_collision b.slots rustomino.board_slots
  let g' ← set_board_slot_states b.slots rustomino.board_slots
    (.Occupied rustomino.rustomino_type)
  let b1 : RustrisBoard := ⟨g', some rustomino, some rustomino⟩
  let b2 ← b1.update_ghost_rustomino false
  some (b2, !coll)

/-- `RustrisBoard::apply_gravity` (via `translate_rustomino`): clear the
current cells, translate the piece one cell down, write the new cells
`Occupied`. -/
def RustrisBoard.apply_gravity (b : RustrisBoard) : Option RustrisBoard :=
  match b.current_rustomino with
  | none => some b
  | some cur => do
    let g1 ← set_board_slot_states b.slots cur.board_slots .Empty
    let cur' := cur.translate (TranslationDirection.Down.get_translation)
    let g2 ← set_board_slot_states g1 cur'.board_slots (.Occupied cur.rustomino_type)
    some ⟨g2, some cur', b.ghost_rustomino⟩

/-- `RustrisBoard::lock_rustomino`: convert the current cells to
`Locked`, drop the current piece, recompute the (now absent) ghost. -/
def RustrisBoard.lock_rustomino (b : RustrisBoard) : Option RustrisBoard :=
  match b.current_rustomino with
  | none => some b
  | some cur => do
    let g' ← set_board_slot_states b.slots cur.board_slots
      (.Locked cur.rustomino_type)
    RustrisBoard.update_ghost_rustomino ⟨g', none, b.ghost_rustomino⟩ true

/-- `RustrisBoard::rotate_current`: no active piece or a colliding
candidate is refused (false, no mutation); otherwise clear the old
cells, commit the rotation, write the new cells, recompute the ghost. -/
def RustrisBoard.rotate_current (b : RustrisBoard) (direction : RotationDirection) :
    Option (RustrisBoard × Bool) :=
  match b.current_rustomino with
  | none => some (b, false)
  | some cur => do
    let rotated_blocks := cur.rotated direction
    let coll ← check_collision b.slots rotated_blocks
    if coll then some (b, false)
    else do
      let g1 ← set_board_slot_states b.slots cur.board_slots .Empty
      let cur' := cur.rotate direction
      let g2 ← set_board_slot_states g1 cur'.board_slots (.Occupied cur.rustomino_type)
      let b2 ← RustrisBoard.update_ghost_rustomino ⟨g2, some cur', b.ghost_rustomino⟩ true
      some (b2, true)

/-- `RustrisBoard::translate_current`: same shape as `rotate_current`
with a translation candidate. -/
def RustrisBoard.translate_current (b : RustrisBoard) (direction : TranslationDirection) :
    Option (RustrisBoard × Bool) :=
  match b.current_rustomino with
  | none => some (b, false)
  | some cur => do
    let coll ← check_collision b.slots (cur.translated direction.get_translation)
    if coll then some (b, false)
    else do
      let g1 ← set_board_slot_states b.slots cur.board_slots .Empty
      let cur' := cur.translate direction.get_translation
      let g2 ← set_board_slot_states g1 cur'.board_slots (.Occupied cur.rustomino_type)
      let b2 ← RustrisBoard.update_ghost_rustomino ⟨g2, some cur', b.ghost_rustomino⟩ true
      some (b2, true)

/-- `RustrisBoard::hard_drop`: compute the drop translation, clear the
current cells to `Empty`, translate the piece (the new cells are written
by the subsequent lock, not here). -/
def RustrisBoard.hard_drop (b : RustrisBoard) : Option RustrisBoard :=
  match b.current_rustomino with
  | none => some b
  | some cur => do
    let delta ← get_hard_drop_translation b.slots cur
    let g' ← set_board_slot_states b.slots cur.board_slots .Empty
    some ⟨g', some (cur.translate delta), b.ghost_rustomino⟩

/-- `RustrisBoard::clear_completed_lines` (board level): the slot
transformation of `clear_completed_lines_slots` followed by the ghost
recomputation; with no complete line the method returns early with no
mutation at all. -/
def RustrisBoard.clear_completed_lines (b : RustrisBoard) :
    Option (RustrisBoard × List Nat) :=
  match clear_completed_lines_slots b.slots with
  | (g', completed) =>
    if completed.isEmpty then some (b, completed)
    else do
      let b' ← RustrisBoard.update_ghost_rustomino
        { b with slots := g' } false
      some (b', completed)

/-- Modelled from the spec (§8 "repeated single-cell `can_fall()`
checks"): step the board down one cell at a time with `apply_gravity`
while `can_fall` holds, counting the steps; the spec-side description of
the descent that `hard_drop` must match. -/
def descend_by_can_fall (b : RustrisBoard) : Nat → Option (RustrisBoard × Nat)
  | 0 => do
    let cf ← b.can_fall
    if cf then none else some (b, 0)
  | fuel + 1 => do
    let cf ← b.can_fall
    if cf then do
      let b' ← b.apply_gravity
      let (bf, n) ← descend_by_can_fall b' fuel
      some (bf, n + 1)
    else some (b, 0)

/-- Some listed cell addresses grid position `(y, x)` (after the `as
usize` casts). -/
def covers (cells : List IVec2) (y x : Nat) : Prop :=
  ∃ c ∈ cells, c.y.toNat = y ∧ c.x.toNat = x

instance (cells : List IVec2) (y x : Nat) : Decidable (covers cells y x) := by
  unfold covers; infer_instance

/-- Collision of the piece translated `k` cells straight down. -/
def coll_at (g : Grid) (r : Rustomino) (k : Nat) : Option Bool :=
  check_collision g (r.translated ⟨0, -(k : Int)⟩)

/-- Two grids agree on the `Locked` tag everywhere on the board; the only
grid information `check_collision` reads. -/
def same_locked (g1 g2 : Grid) : Prop :=
  ∀ y, y < 22 → ∀ x, x < 10 → (g1 y x).isLocked = (g2 y x).isLocked

/-- `GameState` from src/game.rs. -/
inductive GameState where
  | Menu
  | Playing
  | Paused
  | GameOver
deriving DecidableEq

/-- `SINGLE_LINE_SCORE`. -/
def SINGLE_LINE_SCORE : Nat := 100
/-- `DOUBLE_LINE_SCORE`. -/
def DOUBLE_LINE_SCORE : Nat := 300
/-- `TRIPLE_LINE_SCORE`. -/
def TRIPLE_LINE_SCORE : Nat := 500
/-- `RUSTRIS_SCORE` (4 lines). -/
def RUSTRIS_SCORE : Nat := 800

/-- `RustrisGame` from src/game.rs, restricted to the integer/phase state
the claims are about; the floating-point timing fields
(`gravity_time_accum`, `gravity_delay`, `last_update`) and the
view settings are omitted (no claim mentions them, and no modelled
operation touches them).  `bag_refills` is an extra counter driving the
shuffle oracle that stands in for the global RNG: each time the bag is
refilled it is set to the next oracle output (an arbitrary arrangement
of the seven types). -/
structure RustrisGame where
  board : RustrisBoard
  next_rustomino : Option Rustomino
  held_rustomino : Option Rustomino
  game_state : GameState
  score : Nat
  game_level : Nat
  rustomino_bag : List RustominoType
  completed_lines : Nat
  hold_used : Bool
  bag_refills : Nat

/-- A shuffle oracle: the outcome of the k-th bag shuffle.  Theorems
quantify over all oracles whose outputs are arrangements of the seven
piece types, covering every possible shuffle outcome. -/
abbrev ShuffleOracle := Nat → List RustominoType

/-- `RustrisGame::fill_rustomino_bag`: nothing if the bag is non-empty;
otherwise put one of each of the 7 types in and shuffle (the shuffled
content is the oracle's next output). -/
def RustrisGame.fill_rustomino_bag (sh : ShuffleOracle) (s : RustrisGame) : RustrisGame :=
  if s.rustomino_bag.isEmpty then
    { s with rustomino_bag := sh s.bag_refills, bag_refills := s.bag_refills + 1 }
  else s

/-- `RustrisGame::get_next_rustomino`: nothing if a next rustomino is
buffered; otherwise fill the bag if needed and pop (`Vec::pop` takes the
last element; popping an empty bag leaves `next_rustomino` unset). -/
def RustrisGame.get_next_rustomino (sh : ShuffleOracle) (s : RustrisGame) : RustrisGame :=
  if s.next_rustomino.isSome then s
  else
    let s := s.fill_rustomino_bag sh
    match s.rustomino_bag.getLast? with
    | some next_type =>
      { s with rustomino_bag := s.rustomino_bag.dropLast,
               next_rustomino := some (Rustomino.new next_type) }
    | none => s

/-- `RustrisGame::score_completed_lines`: base points by cleared-line
count (1/2/3/4 ↦ 100/300/500/800, anything else panics), multiplied by
the current level and added to the session score. -/
def RustrisGame.score_completed_lines (s : RustrisGame) (completed : List Nat) :
    Option RustrisGame :=
  match completed.length with
  | 1 => some { s with score := s.score + SINGLE_LINE_SCORE * s.game_level }
  | 2 => some { s with score := s.score + DOUBLE_LINE_SCORE * s.game_level }
  | 3 => some { s with score := s.score + TRIPLE_LINE_SCORE * s.game_level }
  | 4 => some { s with score := s.score + RUSTRIS_SCORE * s.game_level }
  | _ => none

/-- `RustrisGame::handle_completed_lines`: clear the board's completed
lines; with none, return; otherwise add the count to the session total
and score them. -/
def RustrisGame.handle_completed_lines (s : RustrisGame) : Option RustrisGame := do
  let (b', completed) ← s.board.clear_completed_lines
  let s := { s with board := b' }
  if completed.isEmpty then some s
  else
    RustrisGame.score_completed_lines
      { s with completed_lines := s.completed_lines + completed.length } completed

/-- `RustrisGame::lock`: clear the hold-once flag, lock the board's
current rustomino, process completed lines. -/
def RustrisGame.lock (s : RustrisGame) : Option RustrisGame := do
  let s := { s with hold_used := false }
  let b' ← s.board.lock_rustomino
  RustrisGame.handle_completed_lines { s with board := b' }

/-- `RustrisGame::hold`: no-op when `hold_used`; otherwise take the held
rustomino (or the next one, refilling it), park the board's current
rustomino (reset) in the hold slot, install the taken piece on the board
— discarding `set_current_rustomino`'s boolean — and set `hold_used`.
The `unwrap` calls on a missing next/current rustomino panic. -/
def RustrisGame.hold (sh : ShuffleOracle) (s : RustrisGame) : Option RustrisGame :=
  if s.hold_used then some s
  else do
    let (rustomino, s) ←
      match s.held_rustomino with
      | some r => some (r, { s with held_rustomino := none })
      | none =>
        match s.next_rustomino with
        | some r => some (r, { s with next_rustomino := none })
        | none => none
    let s := s.get_next_rustomino sh
    let cur ← s.board.current_rustomino
    let s := { s with
      held_rustomino := some cur.reset,
      board := { s.board with current_rustomino := none } }
    let (b', _ok) ← s.board.set_current_rustomino rustomino
    some { s with board := b', hold_used := true }

/-- `RustrisGame::game_over`. -/
def RustrisGame.game_over (s : RustrisGame) : RustrisGame :=
  { s with game_state := .GameOver }

/-- `RustrisGame::translate`: forward to the board, ignoring the result
(the method is named `translate_rustomino` at the call site in
src/game.rs; the board method in src/board.rs is `translate_current`). -/
def RustrisGame.translate (s : RustrisGame) (direction : TranslationDirection) :
    Option RustrisGame :=
  (s.board.translate_current direction).map fun p => { s with board := p.1 }

/-- `RustrisGame::rotate`: forward to the board, ignoring the result. -/
def RustrisGame.rotate (s : RustrisGame) (direction : RotationDirection) :
    Option RustrisGame :=
  (s.board.rotate_current direction).map fun p => { s with board := p.1 }

/-- The `ready_for_next` block of `RustrisGame::update`'s `Playing` arm
(src/game.rs lines 475-487): take the buffered next rustomino (`unwrap`
panics when absent), refill it, offer the taken piece to the board, and
transition to game over iff `set_current_rustomino` returns false. -/
def RustrisGame.update_spawn_step (sh : ShuffleOracle) (s : RustrisGame) :
    Option RustrisGame :=
  if s.board.ready_for_next then do
    let current_rustomino ← s.next_rustomino
    let s := { s with next_rustomino := none }
    let s := s.get_next_rustomino sh
    let (b', ok) ← s.board.set_current_rustomino current_rustomino
    let s := { s with board := b' }
    if ok then some s else some s.game_over
  else some s

/-- The session operations available between two locks (soft drop, hard
drop and the gravity tick all invoke `lock` themselves, so a lock-free
stretch of play consists of hold, translation and rotation requests). -/
inductive GameOp where
  | holdO
  | lockO
  | translateO (d : TranslationDirection)
  | rotateO (d : RotationDirection)
deriving DecidableEq

/-- Interpret one session operation. -/
def stepOp (sh : ShuffleOracle) : GameOp → RustrisGame → Option RustrisGame
  | .holdO, s => s.hold sh
  | .lockO, s => s.lock
  | .translateO d, s => s.translate d
  | .rotateO d, s => s.rotate d

/-- Run a list of session operations in order. -/
def runOps (sh : ShuffleOracle) : List GameOp → RustrisGame → Option RustrisGame
  | [], s => some s
  | op :: rest, s => do
    let s' ← stepOp sh op s
    runOps sh rest s'

/-- Bag-machine state for the piece-supply claims: the bag contents and
the number of refills performed so far. -/
structure BagSt where
  bag : List RustominoType
  refills : Nat

/-- `fill_rustomino_bag` on the bare bag state. -/
def bag_fill (sh : ShuffleOracle) (st : BagSt) : BagSt :=
  if st.bag.isEmpty then ⟨sh st.refills, st.refills + 1⟩ else st

/-- One draw of `get_next_rustomino`: fill the bag if needed, then pop
the last element. -/
def bag_draw (sh : ShuffleOracle) (st : BagSt) : Option RustominoType × BagSt :=
  let st := bag_fill sh st
  (st.bag.getLast?, ⟨st.bag.dropLast, st.refills⟩)

/-- The state of the bag machine after `n + 1` draws, together with the
`n`-th draw, starting from the empty bag a fresh session has. -/
def bag_draw_n (sh : ShuffleOracle) : Nat → Option RustominoType × BagSt
  | 0 => bag_draw sh ⟨[], 0⟩
  | n + 1 => bag_draw sh (bag_draw_n sh n).2

/-- The `n`-th piece type produced by the bag randomizer. -/
def bag_seq (sh : ShuffleOracle) (n : Nat) : Option RustominoType :=
  (bag_draw_n sh n).1

/-- All 7 piece types, one of each, as `fill_rustomino_bag` inserts
them. -/
def all_rustomino_types : List RustominoType :=
  [.I, .O, .T, .S, .Z, .J, .L]

/-- A shuffle oracle is valid when every output is an arrangement
(permutation) of the seven piece types. -/
def valid_shuffles (sh : ShuffleOracle) : Prop :=
  ∀ k, (sh k).Perm all_rustomino_types

/- Claim-statement definitions (used only to refute claims as stated). -/

/-- Claim C5 as stated, quantified over all shuffle outcomes: no type
repeats within any 7 consecutive draws, and every type appears at least
once within every 12 consecutive draws. -/
def claim_c5_statement : Prop :=
  ∀ sh : ShuffleOracle, valid_shuffles sh →
    (∀ i j t, i < j → j < i + 7 → bag_seq sh i = some t → bag_seq sh j ≠ some t)
    ∧ (∀ i t, ∃ j, i ≤ j ∧ j < i + 12 ∧ bag_seq sh j = some t)

/-- Counterexample oracle for C5: the first bag ends (pops last-first, so
draw 6 is the list head) with `L`; the second bag starts with `L`. -/
def c5CexOracle : ShuffleOracle := fun k =>
  if k = 0 then [.L, .J, .Z, .S, .T, .O, .I] else [.I, .O, .T, .S, .Z, .J, .L]

/-- Claim C3 as stated: when one cell down already collides the hard-drop
translation is zero; otherwise it is the largest downward translation
whose cells do not collide (so no strictly larger downward translation
is collision-free). -/
def claim_c3_statement : Prop :=
  ∀ (b : RustrisBoard) (r : Rustomino), b.current_rustomino = some r →
    (check_collision b.slots (r.translated ⟨0, -1⟩) = some true →
      get_hard_drop_translation b.slots r = some ⟨0, 0⟩)
    ∧ (check_collision b.slots (r.translated ⟨0, -1⟩) = some false →
      ∃ n : Nat, get_hard_drop_translation b.slots r = some ⟨0, -(n : Int)⟩
        ∧ check_collision b.slots (r.translated ⟨0, -(n : Int)⟩) = some false
        ∧ ∀ m : Nat, n < m →
            check_collision b.slots (r.translated ⟨0, -(m : Int)⟩) ≠ some false)

/-- Counterexample board for C3: a horizontal 4-cell piece at row 5 above
a full-width locked shelf at row 3 with empty rows below it. -/
def c3CexGrid : Grid := fun y _x =>
  if y = 3 then .Locked .I else .Empty

/-- The piece hanging over the shelf of `c3CexGrid`. -/
def c3CexPiece : Rustomino :=
  ⟨.I, [⟨0, 0⟩, ⟨1, 0⟩, ⟨2, 0⟩, ⟨3, 0⟩], ⟨0, 5⟩⟩

/-- The counterexample board for C3. -/
def c3CexBoard : RustrisBoard :=
  ⟨c3CexGrid, some c3CexPiece, none⟩

/-- Claim C8 as stated, for every board and every piece: the placement
happens and returns, the piece's cells are written `Occupied`, the piece
becomes current, and the flag is false iff some cell overlaps `Locked`. -/
def claim_c8_statement : Prop :=
  ∀ (b : RustrisBoard) (r : Rustomino), ∃ (b' : RustrisBoard) (ok : Bool),
    b.set_current_rustomino r = some (b', ok)
    ∧ b'.current_rustomino = some r
    ∧ (∀ c ∈ r.board_slots,
        b'.slots c.y.toNat c.x.toNat = SlotState.Occupied r.rustomino_type)
    ∧ (ok = false ↔ ∃ c ∈ r.board_slots, (b.slots c.y.toNat c.x.toNat).isLocked)

/-- Counterexample piece for C8: a piece with a cell at row 22, above the
board top. -/
def c8CexPiece : Rustomino :=
  ⟨.O, [⟨0, 0⟩, ⟨1, 0⟩, ⟨0, 1⟩, ⟨1, 1⟩], ⟨4, 21⟩⟩

/-- An empty board used by several witnesses. -/
def emptyBoard : RustrisBoard :=
  ⟨fun _ _ => .Empty, none, none⟩

/-- Claim C2's collision predicate, as the claim states it: wall/floor
collisions, plus `Locked` overlap; cells with row at or above the board
top (row 22) never collide. -/
def collides_per_claim (g : Grid) (c : IVec2) : Bool :=
  if c.x < 0 ∨ (10 : Int) ≤ c.x ∨ c.y < 0 then true
  else if c.y < 22 then (g c.y.toNat c.x.toNat).isLocked
  else false

/-- Claim C2 as stated: `check_collision` always returns, and returns
true exactly on the claim's collision predicate. -/
def claim_c2_statement : Prop :=
  ∀ (g : Grid) (cells : List IVec2),
    check_collision g cells = some (cells.any (collides_per_claim g))

/-- Claim C1's consequence about the top K visible rows, as stated: after
clearing K ≥ 1 lines, each of the top K rows of the visible playfield is
re-populated from the prior buffer contents (or empty if none existed). -/
def claim_c1_statement : Prop :=
  ∀ (g : Grid) (y x : Nat), x < 10 →
    (clear_completed_lines_slots g).2 ≠ [] →
    20 - (clear_completed_lines_slots g).2.length ≤ y → y < 20 →
    (clear_completed_lines_slots g).1 y x =
      if y + (clear_completed_lines_slots g).2.length < 22 then
        g (y + (clear_completed_lines_slots g).2.length) x
      else .Empty

/-- Counterexample grid for C1: row 0 is complete, row 19 holds a single
locked block at column 0, everything else (buffer included) is empty. -/
def c1CexGrid : Grid := fun y x =>
  if y = 0 then .Locked .I
  else if y = 19 ∧ x = 0 then .Locked .I
  else .Empty

/-- Witness grid: exactly row 0 complete, all other rows empty. -/
def c1WitnessGrid : Grid := fun y _x =>
  if y = 0 then .Locked .L else .Empty

/-- Witness board for the movement-commit claim: an empty grid with a
spawned I piece and no ghost; rotating it clockwise throws every block
to column 20, far outside the walls, so the rotation is refused. -/
def c9WitnessBoard : RustrisBoard :=
  ⟨fun _ _ => SlotState.Empty,
   some ⟨RustominoType.I, [⟨3, 20⟩, ⟨4, 20⟩, ⟨5, 20⟩, ⟨6, 20⟩], ⟨0, 0⟩⟩,
   none⟩

/- ------------------------------------------------------------------ -/
/- Theorems                                                           -/
/- ------------------------------------------------------------------ -/

theorem isLocked_iff (s : SlotState) : s.isLocked = true ↔ ∃ t, s = .Locked t := by
  cases s <;> simp [SlotState.isLocked]

/-- Claim C4: `get_complete_lines` returns a row index iff all 10 cells of
that row have tag `Locked` regardless of the carried type, and the
returned indices are in ascending order. -/
theorem get_complete_lines_correct (g : Grid) :
    (∀ r, r ∈ get_complete_lines g ↔
      r < 22 ∧ ∀ x, x < 10 → ∃ t, g r x = SlotState.Locked t)
    ∧ List.Pairwise (· < ·) (get_complete_lines g) := by
  constructor
  · intro r
    rw [get_complete_lines, List.mem_filter, List.mem_range]
    rw [line_is_complete, List.all_eq_true]
    constructor
    · rintro ⟨hr, hall⟩
      refine ⟨hr, fun x hx => ?_⟩
      exact (isLocked_iff _).mp (hall x (List.mem_range.mpr hx))
    · rintro ⟨hr, hall⟩
      refine ⟨hr, fun x hx => ?_⟩
      exact (isLocked_iff _).mpr (hall x (List.mem_range.mp hx))
  · exact List.Pairwise.filter _ (List.pairwise_lt_range _)

theorem check_collision_eq_any (g : Grid) (cells : List IVec2)
    (h : ∀ c ∈ cells, c.y < 22) :
    check_collision g cells = some (cells.any fun c =>
      decide (c.x < 0) || decide ((10 : Int) ≤ c.x) || decide (c.y < 0) ||
        (g c.y.toNat c.x.toNat).isLocked) := by
  have e0 : (BOARD_SLOTS_0 : Int) = 10 := by norm_num [BOARD_SLOTS_0]
  have e1 : (BOARD_SLOTS_1 : Int) = 22 := by norm_num [BOARD_SLOTS_1]
  induction cells with
  | nil => rfl
  | cons c rest ih =>
    have hc := h c (by simp)
    have hrest := fun d hd => h d (List.mem_cons_of_mem _ hd)
    rw [check_collision, List.any_cons, e0, e1]
    by_cases h1 : c.x < 0 ∨ (10 : Int) ≤ c.x
    · rw [if_pos h1]
      rcases h1 with h1 | h1 <;> simp [h1]
    · rw [if_neg h1]
      push_neg at h1
      by_cases h2 : c.y < 0
      · simp [h2]
      · rw [if_neg h2]
        rw [if_neg (by omega : ¬ (22 : Int) ≤ c.y)]
        by_cases h3 : (g c.y.toNat c.x.toNat).isLocked
        · simp [h3, h1.1, h1.2, h2]
        · simp only [h3, ih hrest]
          simp [h1.1, h1.2, h2, h3]

/-- Claim C2, counterexample: on an empty grid, a candidate array whose
cells sit at row 22 (just above the board top) makes `check_collision`
panic with an out-of-bounds index instead of reporting "no collision"
as the claim requires. -/
theorem check_collision_claim_false : ¬ claim_c2_statement := by
  intro h
  have h4 := h (fun _ _ => SlotState.Empty)
    [⟨0, 22⟩, ⟨1, 22⟩, ⟨2, 22⟩, ⟨3, 22⟩]
  exact absurd h4 (by decide)

/-- Claim C2, amended: for candidate cells whose rows are all below the
22-row board top, `check_collision` returns true iff some cell is out of
the walls (column < 0 or ≥ 10), below the floor (row < 0), or on a
`Locked` slot; `Occupied`, `Ghost` and `Empty` tags never collide.  A
first-examined cell with in-range column and row ≥ 22 instead makes the
function panic (index out of bounds). -/
theorem check_collision_amended (g : Grid) (cells : List IVec2)
    (h : ∀ c ∈ cells, c.y < 22) :
    check_collision g cells = some (cells.any fun c =>
      decide (c.x < 0) || decide ((10 : Int) ≤ c.x) || decide (c.y < 0) ||
        (g c.y.toNat c.x.toNat).isLocked)
    ∧ ∀ t, (SlotState.Occupied t).isLocked = false
        ∧ (SlotState.Ghost t).isLocked = false
        ∧ SlotState.Empty.isLocked = false := by
  refine ⟨check_collision_eq_any g cells h, fun t => by simp [SlotState.isLocked]⟩

/-- Witness for the amended C2 at a concrete grid and candidate array:
a locked slot at (0, 0) is reported as a collision. -/
theorem check_collision_amended_witness :
    check_collision (fun y x => if y = 0 ∧ x = 0 then .Locked .I else .Empty)
      [⟨0, 0⟩, ⟨1, 0⟩, ⟨2, 0⟩, ⟨3, 0⟩] = some true := by
  have h := (check_collision_amended
    (fun y x => if y = 0 ∧ x = 0 then .Locked .I else .Empty)
    [⟨0, 0⟩, ⟨1, 0⟩, ⟨2, 0⟩, ⟨3, 0⟩] (by decide)).1
  exact h.trans (by decide)

/-- Claim C1, counterexample: with row 0 complete and a locked block at
(row 19, column 0), clearing leaves that block in place at row 19 even
though the claim requires row 19 (the top visible row, K = 1) to be
re-populated from buffer row 20, which is empty. -/
theorem clear_completed_lines_claim_false : ¬ claim_c1_statement := by
  intro h
  have h19 := h c1CexGrid 19 0 (by decide) (by decide) (by decide) (by decide)
  exact absurd h19 (by decide)

/-- Claim C1, amended: `clear_completed_lines` returns the ascending list
of complete rows; with no complete row the grid is unchanged.  With
K ≥ 1 complete rows and lowest complete row `first`: every row `y` with
`first ≤ y` and `y + K < 20` is overwritten with the pre-clear content of
the row K rows above it (so content of non-lowest completed rows can be
re-introduced); completed rows at or above row `20 - K` (and below 20)
are emptied; every other row — the top K visible rows' other content and
the two buffer rows — is left unchanged rather than re-populated from
the buffer. -/
theorem clear_completed_lines_amended (g : Grid) :
    (clear_completed_lines_slots g).2 = get_complete_lines g
    ∧ (get_complete_lines g = [] → (clear_completed_lines_slots g).1 = g)
    ∧ (∀ first rest, get_complete_lines g = first :: rest →
        ∀ y x, (clear_completed_lines_slots g).1 y x =
          if first ≤ y ∧ y + (first :: rest).length < 20 then
            g (y + (first :: rest).length) x
          else if y < 20 ∧ y ∈ (first :: rest) then SlotState.Empty
          else g y x) := by
  refine ⟨?_, ?_, ?_⟩
  · rw [clear_completed_lines_slots]
    rcases h : get_complete_lines g with _ | ⟨a, l⟩ <;> simp
  · intro h
    rw [clear_completed_lines_slots, h]
  · intro first rest h y x
    rw [clear_completed_lines_slots, h]
    simp only [compact_phase, clear_lines_phase, PLAYFIELD_SIZE_1]

/-- Witness for the amended C1: with exactly row 0 complete, row 5 takes
the prior content of row 6 (empty). -/
theorem clear_completed_lines_amended_witness :
    (clear_completed_lines_slots c1WitnessGrid).1 5 2 = SlotState.Empty := by
  have h := (clear_completed_lines_amended c1WitnessGrid).2.2 0 [] (by decide) 5 2
  simpa using h

theorem set_one_slot_some {g : Grid} {c : IVec2} {s : SlotState} {g' : Grid}
    (h : set_one_slot g c s = some g') :
    in_grid c ∧ g' = fun y x => if y = c.y.toNat ∧ x = c.x.toNat then s else g y x := by
  rw [set_one_slot] at h
  by_cases hc : in_grid c
  · rw [if_pos hc] at h
    exact ⟨hc, (Option.some_inj.mp h).symm⟩
  · rw [if_neg hc] at h
    exact absurd h (by simp)

theorem set_board_slot_states_spec :
    ∀ (cells : List IVec2) (g g' : Grid) (s : SlotState),
      set_board_slot_states g cells s = some g' →
      (∀ c ∈ cells, in_grid c)
      ∧ ∀ y x, g' y x = if covers cells y x then s else g y x := by
  intro cells
  induction cells with
  | nil =>
    intro g g' s h
    rw [set_board_slot_states] at h
    refine ⟨by simp, fun y x => ?_⟩
    rw [if_neg (by rintro ⟨c, hc, -⟩; exact absurd hc (by simp))]
    rw [← Option.some_inj.mp h]
  | cons c rest ih =>
    intro g g' s h
    rw [set_board_slot_states] at h
    rcases h1 : set_one_slot g c s with _ | g1
    · rw [h1] at h; exact absurd h (by simp)
    rw [h1] at h
    obtain ⟨hcin, hg1⟩ := set_one_slot_some h1
    obtain ⟨hin, hval⟩ := ih g1 g' s h
    refine ⟨?_, fun y x => ?_⟩
    · intro d hd
      rcases List.mem_cons.mp hd with rfl | hd
      · exact hcin
      · exact hin d hd
    · have hg1v : ∀ y x, g1 y x = if y = c.y.toNat ∧ x = c.x.toNat then s else g y x :=
        fun y x => by rw [hg1]
      rw [hval y x, hg1v y x]
      by_cases hr : covers rest y x
      · rw [if_pos hr, if_pos (show covers (c :: rest) y x from
          ⟨hr.choose, List.mem_cons_of_mem _ hr.choose_spec.1, hr.choose_spec.2⟩)]
      · rw [if_neg hr]
        by_cases hcyx : y = c.y.toNat ∧ x = c.x.toNat
        · rw [if_pos hcyx, if_pos (show covers (c :: rest) y x from
            ⟨c, List.mem_cons_self c rest, hcyx.1.symm, hcyx.2.symm⟩)]
        · rw [if_neg hcyx, if_neg (show ¬ covers (c :: rest) y x from ?_)]
          rintro ⟨d, hd, hdy, hdx⟩
          rcases List.mem_cons.mp hd with rfl | hd
          · exact hcyx ⟨hdy.symm, hdx.symm⟩
          · exact hr ⟨d, hd, hdy, hdx⟩

theorem set_board_slot_states_isSome :
    ∀ (cells : List IVec2) (g : Grid) (s : SlotState),
      (∀ c ∈ cells, in_grid c) →
      ∃ g', set_board_slot_states g cells s = some g' := by
  intro cells
  induction cells with
  | nil => intro g s _; exact ⟨g, rfl⟩
  | cons c rest ih =>
    intro g s h
    have hc : in_grid c := h c (List.mem_cons_self c rest)
    obtain ⟨g', hg'⟩ := ih (fun y x => if y = c.y.toNat ∧ x = c.x.toNat then s else g y x) s
      (fun d hd => h d (List.mem_cons_of_mem _ hd))
    refine ⟨g', ?_⟩
    rw [set_board_slot_states, set_one_slot, if_pos hc]
    exact hg'

theorem check_collision_congr (g1 g2 : Grid) (hsame : same_locked g1 g2) :
    ∀ cells : List IVec2, check_collision g1 cells = check_collision g2 cells := by
  intro cells
  induction cells with
  | nil => rfl
  | cons c rest ih =>
    rw [check_collision, check_collision]
    by_cases h1 : c.x < 0 ∨ (BOARD_SLOTS_0 : Int) ≤ c.x
    · rw [if_pos h1, if_pos h1]
    · rw [if_neg h1, if_neg h1]
      push_neg at h1
      by_cases h2 : c.y < 0
      · rw [if_pos h2, if_pos h2]
      · rw [if_neg h2, if_neg h2]
        push_neg at h2
        by_cases h3 : (BOARD_SLOTS_1 : Int) ≤ c.y
        · rw [if_pos h3, if_pos h3]
        · rw [if_neg h3, if_neg h3]
          push_neg at h3
          have hy : c.y.toNat < 22 := by
            rw [BOARD_SLOTS_1] at h3; omega
          have hx : c.x.toNat < 10 := by
            rw [BOARD_SLOTS_0] at h1; omega
          rw [hsame c.y.toNat hy c.x.toNat hx, ih]

theorem check_collision_isSome (g : Grid) (cells : List IVec2)
    (h : ∀ c ∈ cells, c.y < 22) :
    check_collision g cells ≠ none := by
  rw [check_collision_eq_any g cells h]
  simp

theorem IVec2.add_def (a b : IVec2) : a + b = ⟨a.x + b.x, a.y + b.y⟩ := rfl

theorem IVec2.add_assoc (a b c : IVec2) : a + b + c = a + (b + c) := by
  simp only [IVec2.add_def, IVec2.mk.injEq]
  omega

theorem translated_eq_board_slots_map (r : Rustomino) (t : IVec2) :
    r.translated t = r.board_slots.map fun c => c + t := by
  rw [Rustomino.translated, Rustomino.board_slots, List.map_map]
  rfl

theorem translate_board_slots (r : Rustomino) (t : IVec2) :
    (r.translate t).board_slots = r.translated t := by
  rw [Rustomino.translate, Rustomino.board_slots, Rustomino.translated]
  refine List.map_congr_left fun b _ => ?_
  show b + (r.translation + t) = b + r.translation + t
  rw [IVec2.add_assoc]

theorem translate_translated (r : Rustomino) (t u : IVec2) :
    (r.translate t).translated u = r.translated (t + u) := by
  rw [Rustomino.translate, Rustomino.translated, Rustomino.translated]
  refine List.map_congr_left fun b _ => ?_
  show b + (r.translation + t) + u = b + r.translation + (t + u)
  simp only [IVec2.add_def, IVec2.mk.injEq]
  omega

theorem rotate_board_slots (r : Rustomino) (d : RotationDirection) :
    (r.rotate d).board_slots = r.rotated d := by
  rw [Rustomino.rotate, Rustomino.board_slots, Rustomino.rotated, List.map_map]
  rfl

theorem ghost_write_pass_spec :
    ∀ (cells : List IVec2) (g g' : Grid) (t : RustominoType),
      ghost_write_pass g t cells = some g' →
      ∀ y x, (g' y x = g y x ∨ g' y x = .Ghost t)
        ∧ ((g y x).isOccupied = true → g' y x = g y x) := by
  intro cells
  induction cells with
  | nil =>
    intro g g' t h y x
    rw [ghost_write_pass] at h
    rw [← Option.some_inj.mp h]
    exact ⟨Or.inl rfl, fun _ => rfl⟩
  | cons c rest ih =>
    intro g g' t h y x
    rw [ghost_write_pass] at h
    by_cases hc : in_grid c
    · rw [if_pos hc] at h
      by_cases hocc : (g c.y.toNat c.x.toNat).isOccupied
      · rw [if_pos hocc] at h
        exact ih g g' t h y x
      · rw [if_neg hocc] at h
        have hstep := ih _ g' t h y x
        by_cases hyx : y = c.y.toNat ∧ x = c.x.toNat
        · constructor
          · rcases hstep.1 with h' | h'
            · rw [h', if_pos hyx]; exact Or.inr rfl
            · exact Or.inr h'
          · intro hgocc
            exact absurd hgocc (by rw [hyx.1, hyx.2] at *; simp [hocc])
        · constructor
          · rcases hstep.1 with h' | h'
            · rw [h', if_neg hyx]; exact Or.inl rfl
            · exact Or.inr h'
          · intro hgocc
            have := hstep.2 (by rw [if_neg hyx]; exact hgocc)
            rw [this, if_neg hyx]
    · rw [if_neg hc] at h
      exact absurd h (by simp)

theorem ghost_write_pass_isSome :
    ∀ (cells : List IVec2) (g : Grid) (t : RustominoType),
      (∀ c ∈ cells, in_grid c) →
      ∃ g', ghost_write_pass g t cells = some g' := by
  intro cells
  induction cells with
  | nil => intro g t _; exact ⟨g, rfl⟩
  | cons c rest ih =>
    intro g t h
    have hc : in_grid c := h c (List.mem_cons_self c rest)
    have hrest := fun d hd => h d (List.mem_cons_of_mem _ hd)
    rw [ghost_write_pass, if_pos hc]
    by_cases hocc : (g c.y.toNat c.x.toNat).isOccupied
    · rw [if_pos hocc]; exact ih g t hrest
    · rw [if_neg hocc]; exact ih _ t hrest

theorem ghost_clear_pass_spec :
    ∀ (cells : List IVec2) (g g' : Grid),
      ghost_clear_pass g cells = some g' →
      ∀ y x, (g' y x = g y x ∨ g' y x = .Empty)
        ∧ ((g y x).isOccupied = true → g' y x = g y x) := by
  intro cells
  induction cells with
  | nil =>
    intro g g' h y x
    rw [ghost_clear_pass] at h
    rw [← Option.some_inj.mp h]
    exact ⟨Or.inl rfl, fun _ => rfl⟩
  | cons c rest ih =>
    intro g g' h y x
    rw [ghost_clear_pass] at h
    by_cases hc : in_grid c
    · rw [if_pos hc] at h
      by_cases hocc : (g c.y.toNat c.x.toNat).isOccupied
      · rw [if_pos hocc] at h
        exact ih g g' h y x
      · rw [if_neg hocc] at h
        have hstep := ih _ g' h y x
        by_cases hyx : y = c.y.toNat ∧ x = c.x.toNat
        · constructor
          · rcases hstep.1 with h' | h'
            · rw [h', if_pos hyx]; exact Or.inr rfl
            · exact Or.inr h'
          · intro hgocc
            exact absurd hgocc (by rw [hyx.1, hyx.2] at *; simp [hocc])
        · constructor
          · rcases hstep.1 with h' | h'
            · rw [h', if_neg hyx]; exact Or.inl rfl
            · exact Or.inr h'
          · intro hgocc
            have := hstep.2 (by rw [if_neg hyx]; exact hgocc)
            rw [this, if_neg hyx]
    · rw [if_neg hc] at h
      exact absurd h (by simp)

theorem ghost_clear_pass_isSome :
    ∀ (cells : List IVec2) (g : Grid),
      (∀ c ∈ cells, in_grid c) →
      ∃ g', ghost_clear_pass g cells = some g' := by
  intro cells
  induction cells with
  | nil => intro g _; exact ⟨g, rfl⟩
  | cons c rest ih =>
    intro g h
    have hc : in_grid c := h c (List.mem_cons_self c rest)
    have hrest := fun d hd => h d (List.mem_cons_of_mem _ hd)
    rw [ghost_clear_pass, if_pos hc]
    by_cases hocc : (g c.y.toNat c.x.toNat).isOccupied
    · rw [if_pos hocc]; exact ih g hrest
    · rw [if_neg hocc]; exact ih _ hrest

theorem coll_at_ne_none (g : Grid) (r : Rustomino) (k : Nat)
    (hy22 : ∀ c ∈ r.board_slots, c.y < 22) :
    coll_at g r k ≠ none := by
  rw [coll_at]
  refine check_collision_isSome g _ fun d hd => ?_
  rw [translated_eq_board_slots_map] at hd
  obtain ⟨c, hc, rfl⟩ := List.mem_map.mp hd
  have := hy22 c hc
  show c.y + -(k : Int) < 22
  omega

theorem coll_at_true_of_below (g : Grid) (r : Rustomino) (k : Nat) (c0 : IVec2)
    (hc0 : c0 ∈ r.board_slots) (hk : c0.y < (k : Int))
    (hy22 : ∀ c ∈ r.board_slots, c.y < 22) :
    coll_at g r k = some true := by
  rw [coll_at, translated_eq_board_slots_map]
  rw [check_collision_eq_any]
  · congr 1
    rw [List.any_eq_true]
    refine ⟨c0 + ⟨0, -(k : Int)⟩, List.mem_map_of_mem _ hc0, ?_⟩
    have : (c0 + ⟨0, -(k : Int)⟩).y < 0 := by
      show c0.y + -(k : Int) < 0
      omega
    simp [this]
  · intro d hd
    obtain ⟨c, hc, rfl⟩ := List.mem_map.mp hd
    have := hy22 c hc
    show c.y + -(k : Int) < 22
    omega

theorem coll_at_one (g : Grid) (r : Rustomino) :
    check_collision g (r.translated DOWN_TRANSLATION) = coll_at g r 1 := by
  rw [coll_at]
  norm_num [DOWN_TRANSLATION]

theorem hard_drop_go_eq (g : Grid) (r : Rustomino) (n : Nat)
    (htrue : coll_at g r (n + 1) = some true)
    (hfalse : ∀ j, 1 ≤ j → j ≤ n → coll_at g r j = some false) :
    ∀ fuel k, 1 ≤ k → k ≤ n → n - k < fuel →
      hard_drop_go g r fuel k = some ⟨0, -(n : Int)⟩ := by
  intro fuel
  induction fuel with
  | zero => intro k _ _ hcon; omega
  | succ fuel ih =>
    intro k hk1 hkn hfuel
    have hcast : check_collision g (r.translated ⟨0, -((k : Int) + 1)⟩)
        = coll_at g r (k + 1) := by
      rw [coll_at]
      norm_num
    rw [hard_drop_go, hcast]
    by_cases hkeq : k = n
    · subst hkeq
      rw [htrue]
    · have hlt : k < n := lt_of_le_of_ne hkn hkeq
      rw [hfalse (k + 1) (by omega) (by omega)]
      rw [ih (k + 1) (by omega) (by omega) (by omega)]

theorem hard_drop_char (g : Grid) (r : Rustomino)
    (hne : r.board_slots ≠ [])
    (hy22 : ∀ c ∈ r.board_slots, c.y < 22) :
    ∃ n : Nat, get_hard_drop_translation g r = some ⟨0, -(n : Int)⟩
      ∧ (∀ j, 1 ≤ j → j ≤ n → coll_at g r j = some false)
      ∧ coll_at g r (n + 1) = some true
      ∧ (∀ c ∈ r.board_slots, n ≤ c.y.toNat)
      ∧ (n = 0 ↔ coll_at g r 1 = some true) := by
  obtain ⟨c0, hc0⟩ := List.exists_mem_of_ne_nil _ hne
  have hex : ∃ m, coll_at g r (m + 1) = some true := by
    refine ⟨c0.y.toNat, coll_at_true_of_below g r _ c0 hc0 (by omega) hy22⟩
  let n := Nat.find hex
  have htrue : coll_at g r (n + 1) = some true := Nat.find_spec hex
  have hfalse : ∀ j, 1 ≤ j → j ≤ n → coll_at g r j = some false := by
    intro j hj1 hjn
    have hnottrue : coll_at g r j ≠ some true := by
      have := Nat.find_min hex (m := j - 1) (by omega)
      intro hcon
      exact this (by rwa [show j - 1 + 1 = j by omega])
    rcases hval : coll_at g r j with _ | b
    · exact absurd hval (coll_at_ne_none g r j hy22)
    · cases b
      · rfl
      · exact absurd hval hnottrue
  have hbound : ∀ c ∈ r.board_slots, n ≤ c.y.toNat := by
    intro c hc
    exact Nat.find_min' hex (coll_at_true_of_below g r _ c hc (by omega) hy22)
  refine ⟨n, ?_, hfalse, htrue, hbound, ?_⟩
  · rw [get_hard_drop_translation, coll_at_one]
    by_cases hn0 : n = 0
    · rw [show coll_at g r 1 = some true from by
        have := htrue; rwa [hn0, Nat.zero_add] at this]
      rw [hn0]
      norm_num
    · rw [hfalse 1 le_rfl (by omega)]
      rcases hmin : (r.board_slots.map fun c => c.y).min? with _ | m
      · rw [List.min?_eq_none_iff] at hmin
        exact absurd (List.map_eq_nil_iff.mp hmin) hne
      · have hm_mem : m ∈ r.board_slots.map fun c => c.y :=
          List.min?_mem (fun a b => min_choice a b) hmin
        obtain ⟨cm, hcm, hcmy⟩ := List.mem_map.mp hm_mem
        have hnm : n ≤ m.toNat := hcmy ▸ hbound cm hcm
        rw [hard_drop_fuel, hmin]
        exact hard_drop_go_eq g r n htrue hfalse (m.toNat + 2) 1 le_rfl (by omega) (by omega)
  · constructor
    · intro hn0
      have := htrue
      rwa [hn0, Nat.zero_add] at this
    · intro h1
      have : n ≤ 0 := Nat.find_min' hex (by rwa [Nat.zero_add])
      omega


theorem rustomino_translate_translate (r : Rustomino) (t u : IVec2) :
    (r.translate t).translate u = r.translate (t + u) := by
  show Rustomino.mk _ _ (r.translation + t + u) = Rustomino.mk _ _ (r.translation + (t + u))
  rw [IVec2.add_assoc]
  rfl

theorem down_add_one (i : Nat) :
    (⟨0, -(i : Int)⟩ + ⟨0, -1⟩ : IVec2) = ⟨0, -((i + 1 : Nat) : Int)⟩ := by
  rw [IVec2.add_def, IVec2.mk.injEq]
  refine ⟨by norm_num, ?_⟩
  push_cast
  ring

theorem translated_y_lt (r : Rustomino) (k : Nat)
    (hy22 : ∀ c ∈ r.board_slots, c.y < 22) :
    ∀ d ∈ r.translated ⟨0, -(k : Int)⟩, d.y < 22 := by
  intro d hd
  rw [translated_eq_board_slots_map] at hd
  obtain ⟨c, hc, rfl⟩ := List.mem_map.mp hd
  have := hy22 c hc
  show c.y + -(k : Int) < 22
  omega

theorem coll_at_false_entails (g : Grid) (r : Rustomino) (k : Nat)
    (hy22 : ∀ c ∈ r.board_slots, c.y < 22)
    (h : coll_at g r k = some false) :
    ∀ d ∈ r.translated ⟨0, -(k : Int)⟩,
      in_grid d ∧ (g d.y.toNat d.x.toNat).isLocked = false := by
  rw [coll_at, check_collision_eq_any g _ (translated_y_lt r k hy22)] at h
  have hany := Option.some_inj.mp h
  rw [List.any_eq_false] at hany
  intro d hd
  have hpred := hany d hd
  have hy : d.y < 22 := translated_y_lt r k hy22 d hd
  rw [Bool.not_eq_true] at hpred
  simp only [Bool.or_eq_false_iff, decide_eq_false_iff_not, not_lt, not_le] at hpred
  obtain ⟨⟨⟨hx0, hx10⟩, hy0⟩, hlock⟩ := hpred
  exact ⟨⟨hx0, hx10, hy0, hy⟩, hlock⟩

theorem down_translation_val : DOWN_TRANSLATION = (⟨0, -1⟩ : IVec2) := rfl

theorem down_get_translation_val :
    TranslationDirection.Down.get_translation = (⟨0, -1⟩ : IVec2) := rfl

theorem translated_down_succ (r : Rustomino) (i : Nat) :
    (r.translate ⟨0, -(i : Int)⟩).translated DOWN_TRANSLATION
      = r.translated ⟨0, -((i + 1 : Nat) : Int)⟩ := by
  rw [translate_translated, down_translation_val, down_add_one]

theorem translate_down_succ (r : Rustomino) (i : Nat) :
    (r.translate ⟨0, -(i : Int)⟩).translate TranslationDirection.Down.get_translation
      = r.translate ⟨0, -((i + 1 : Nat) : Int)⟩ := by
  rw [rustomino_translate_translate, down_get_translation_val, down_add_one]

theorem descend_go (g : Grid) (r : Rustomino) (n : Nat)
    (hy22 : ∀ c ∈ r.board_slots, c.y < 22)
    (hfalse : ∀ j, 1 ≤ j → j ≤ n → coll_at g r j = some false)
    (htrue : coll_at g r (n + 1) = some true) :
    ∀ (fuel i : Nat) (bs : Grid) (bg : Option Rustomino),
      i ≤ n → n - i < fuel →
      same_locked bs g →
      (∀ d ∈ (r.translate ⟨0, -(i : Int)⟩).board_slots, in_grid d) →
      (∀ d ∈ (r.translate ⟨0, -(i : Int)⟩).board_slots,
        (bs d.y.toNat d.x.toNat).isLocked = false) →
      ∃ bf, descend_by_can_fall ⟨bs, some (r.translate ⟨0, -(i : Int)⟩), bg⟩ fuel
          = some (bf, n - i)
        ∧ bf.current_rustomino = some (r.translate ⟨0, -(n : Int)⟩) := by
  intro fuel
  induction fuel with
  | zero => intro i bs bg _ hcon; omega
  | succ fuel ih =>
    intro i bs bg hin hfuel hsame hgrid hnl
    have hcf0 : RustrisBoard.can_fall ⟨bs, some (r.translate ⟨0, -(i : Int)⟩), bg⟩
        = match coll_at g r (i + 1) with
          | none => none
          | some c => some (!c) := by
      rw [show coll_at g r (i + 1)
          = check_collision bs ((r.translate ⟨0, -(i : Int)⟩).translated DOWN_TRANSLATION)
        from by rw [translated_down_succ, check_collision_congr bs g hsame]; rfl]
      rfl
    by_cases hieq : i = n
    · subst hieq
      have hcf : RustrisBoard.can_fall ⟨bs, some (r.translate ⟨0, -(i : Int)⟩), bg⟩
          = some false := by
        rw [hcf0, htrue]
        rfl
      refine ⟨⟨bs, some (r.translate ⟨0, -(i : Int)⟩), bg⟩, ?_, rfl⟩
      have e0 : descend_by_can_fall ⟨bs, some (r.translate ⟨0, -(i : Int)⟩), bg⟩
          (fuel + 1)
          = (RustrisBoard.can_fall ⟨bs, some (r.translate ⟨0, -(i : Int)⟩), bg⟩).bind
            fun cf =>
              if cf then
                (RustrisBoard.apply_gravity
                  ⟨bs, some (r.translate ⟨0, -(i : Int)⟩), bg⟩).bind fun b' =>
                (descend_by_can_fall b' fuel).bind fun p =>
                  some (p.1, p.2 + 1)
              else some (⟨bs, some (r.translate ⟨0, -(i : Int)⟩), bg⟩, 0) := rfl
      rw [e0, hcf, Option.some_bind, if_neg (by simp), Nat.sub_self]
    · have hclt : i < n := lt_of_le_of_ne hin hieq
      have hcf : RustrisBoard.can_fall ⟨bs, some (r.translate ⟨0, -(i : Int)⟩), bg⟩
          = some true := by
        rw [hcf0, hfalse (i + 1) (by omega) (by omega)]
        rfl
      -- the gravity step succeeds
      obtain ⟨g1, hg1⟩ := set_board_slot_states_isSome
        (r.translate ⟨0, -(i : Int)⟩).board_slots bs .Empty hgrid
      have hg1spec := set_board_slot_states_spec _ _ _ _ hg1
      have hnewcells : ∀ d ∈ (r.translate ⟨0, -((i + 1 : Nat) : Int)⟩).board_slots,
          in_grid d ∧ (g d.y.toNat d.x.toNat).isLocked = false := by
        intro d hd
        rw [translate_board_slots] at hd
        exact coll_at_false_entails g r (i + 1) hy22
          (hfalse (i + 1) (by omega) (by omega)) d hd
      obtain ⟨g2, hg2⟩ := set_board_slot_states_isSome
        ((r.translate ⟨0, -(i : Int)⟩).translate
          TranslationDirection.Down.get_translation).board_slots g1
        (.Occupied (r.translate ⟨0, -(i : Int)⟩).rustomino_type)
        (by
          intro d hd
          rw [translate_down_succ] at hd
          exact (hnewcells d hd).1)
      have hg2spec := set_board_slot_states_spec _ _ _ _ hg2
      have hgrav : RustrisBoard.apply_gravity
          ⟨bs, some (r.translate ⟨0, -(i : Int)⟩), bg⟩
          = some ⟨g2, some ((r.translate ⟨0, -(i : Int)⟩).translate
              TranslationDirection.Down.get_translation), bg⟩ := by
        have e1 : RustrisBoard.apply_gravity
            ⟨bs, some (r.translate ⟨0, -(i : Int)⟩), bg⟩
            = (set_board_slot_states bs (r.translate ⟨0, -(i : Int)⟩).board_slots
                .Empty).bind fun ga =>
              (set_board_slot_states ga
                ((r.translate ⟨0, -(i : Int)⟩).translate
                  TranslationDirection.Down.get_translation).board_slots
                (.Occupied (r.translate ⟨0, -(i : Int)⟩).rustomino_type)).bind fun gb =>
              some ⟨gb, some ((r.translate ⟨0, -(i : Int)⟩).translate
                TranslationDirection.Down.get_translation), bg⟩ := rfl
        rw [e1, hg1, Option.some_bind, hg2, Option.some_bind]
      -- locked profile is preserved
      have hsame2 : same_locked g2 g := by
        intro y hy x hx
        rw [(hg2spec.2) y x]
        by_cases hcov2 : covers ((r.translate ⟨0, -(i : Int)⟩).translate
            TranslationDirection.Down.get_translation).board_slots y x
        · rw [if_pos hcov2]
          obtain ⟨d, hd, hdy, hdx⟩ := hcov2
          rw [translate_down_succ] at hd
          have hdl := (hnewcells d hd).2
          rw [hdy, hdx] at hdl
          rw [hdl]
          rfl
        · rw [if_neg hcov2, (hg1spec.2) y x]
          by_cases hcov1 : covers (r.translate ⟨0, -(i : Int)⟩).board_slots y x
          · rw [if_pos hcov1]
            obtain ⟨d, hd, hdy, hdx⟩ := hcov1
            have hdl := hnl d hd
            rw [hdy, hdx] at hdl
            rw [← hsame y hy x hx, hdl]
            rfl
          · rw [if_neg hcov1]
            exact hsame y hy x hx
      -- the new cells are `Occupied` in `g2`, hence not locked there
      have hnl2 : ∀ d ∈ (r.translate ⟨0, -((i + 1 : Nat) : Int)⟩).board_slots,
          (g2 d.y.toNat d.x.toNat).isLocked = false := by
        intro d hd
        rw [(hg2spec.2) d.y.toNat d.x.toNat,
          if_pos (show covers _ d.y.toNat d.x.toNat from
            ⟨d, by rw [translate_down_succ]; exact hd, rfl, rfl⟩)]
        rfl
      obtain ⟨bf, hrun, hbf⟩ := ih (i + 1) g2 bg (by omega) (by omega) hsame2
        (fun d hd => (hnewcells d hd).1) hnl2
      refine ⟨bf, ?_, hbf⟩
      have e0 : descend_by_can_fall ⟨bs, some (r.translate ⟨0, -(i : Int)⟩), bg⟩
          (fuel + 1)
          = (RustrisBoard.can_fall ⟨bs, some (r.translate ⟨0, -(i : Int)⟩), bg⟩).bind
            fun cf =>
              if cf then
                (RustrisBoard.apply_gravity
                  ⟨bs, some (r.translate ⟨0, -(i : Int)⟩), bg⟩).bind fun b' =>
                (descend_by_can_fall b' fuel).bind fun p =>
                  some (p.1, p.2 + 1)
              else some (⟨bs, some (r.translate ⟨0, -(i : Int)⟩), bg⟩, 0) := rfl
      rw [e0, hcf, Option.some_bind, if_pos rfl, hgrav, Option.some_bind,
        translate_down_succ, hrun, Option.some_bind]
      show some (bf, n - (i + 1) + 1) = some (bf, n - i)
      rw [show n - (i + 1) + 1 = n - i from by omega]

theorem rustomino_translate_zero (r : Rustomino) :
    r.translate ⟨0, -((0 : Nat) : Int)⟩ = r := by
  show Rustomino.mk r.rustomino_type r.blocks (r.translation + ⟨0, -((0 : Nat) : Int)⟩) = r
  rw [show (r.translation + ⟨0, -((0 : Nat) : Int)⟩ : IVec2) = r.translation from by
    rw [IVec2.add_def]
    show IVec2.mk (r.translation.x + 0) (r.translation.y + -((0 : Nat) : Int)) = _
    rw [show r.translation.x + 0 = r.translation.x from by ring,
      show r.translation.y + -((0 : Nat) : Int) = r.translation.y from by push_cast; ring]]

/-- Claim C3, counterexample to "largest downward translation whose cells
do not collide": with a locked shelf at row 3 under a piece at row 5 and
empty rows below the shelf, the search stops at one cell down (the first
resting position), while translating 5 cells down is also collision-free
(the piece would sit below the shelf).  The code's translation is the
first blocked descent position, not the largest non-colliding one. -/
theorem hard_drop_claim_false : ¬ claim_c3_statement := by
  intro h
  obtain ⟨-, h2⟩ := h c3CexBoard c3CexPiece rfl
  obtain ⟨n, hn, -, hmax⟩ := h2 (by decide)
  have hval : get_hard_drop_translation c3CexBoard.slots c3CexPiece = some ⟨0, -1⟩ := by
    decide
  rw [hval] at hn
  have hy := congrArg IVec2.y (Option.some_inj.mp hn)
  have hn1 : n = 1 := by
    have : (-1 : Int) = -(n : Int) := hy
    omega
  subst hn1
  exact hmax 5 (by omega) (by decide)

/-- Claim C3, amended: the hard-drop translation is the descent position
reached by repeated single-cell `can_fall` checks — zero when one cell
down already collides, and otherwise the largest `k` such that every one
of the first `k` single-cell downward steps is collision-free, with step
`k + 1` colliding.  (A collision-free position further down, below a
blocking row, is not reached, so "largest non-colliding translation"
holds only in this prefix sense.)  `hard_drop` moves the piece exactly
there, and the `can_fall`/`apply_gravity` descent lands on the same
piece position after the same number of steps. -/
theorem hard_drop_equals_can_fall_descent (b : RustrisBoard) (r : Rustomino)
    (hcur : b.current_rustomino = some r)
    (hne : r.board_slots ≠ [])
    (hwf : ∀ c ∈ r.board_slots, in_grid c)
    (hnl : ∀ c ∈ r.board_slots, (b.slots c.y.toNat c.x.toNat).isLocked = false) :
    ∃ n : Nat,
      get_hard_drop_translation b.slots r = some ⟨0, -(n : Int)⟩
      ∧ (∀ fuel, n < fuel → ∃ bf, descend_by_can_fall b fuel = some (bf, n)
          ∧ bf.current_rustomino = some (r.translate ⟨0, -(n : Int)⟩))
      ∧ (∀ j, 1 ≤ j → j ≤ n → coll_at b.slots r j = some false)
      ∧ coll_at b.slots r (n + 1) = some true
      ∧ (n = 0 ↔ check_collision b.slots (r.translated DOWN_TRANSLATION) = some true)
      ∧ (∃ b2, b.hard_drop = some b2
          ∧ b2.current_rustomino = some (r.translate ⟨0, -(n : Int)⟩)) := by
  obtain ⟨bs, bc, bg⟩ := b
  replace hcur : bc = some r := hcur
  subst hcur
  replace hnl : ∀ c ∈ r.board_slots, (bs c.y.toNat c.x.toNat).isLocked = false := hnl
  have hy22 : ∀ c ∈ r.board_slots, c.y < 22 := fun c hc => (hwf c hc).2.2.2
  obtain ⟨n, hdt, hfalse, htrue, _hbound, hzero⟩ := hard_drop_char bs r hne hy22
  refine ⟨n, hdt, ?_, hfalse, htrue, by rw [coll_at_one]; exact hzero, ?_⟩
  · intro fuel hfuel
    have hgrid0 : ∀ d ∈ (r.translate ⟨0, -((0 : Nat) : Int)⟩).board_slots, in_grid d := by
      rw [rustomino_translate_zero]; exact hwf
    have hnl0 : ∀ d ∈ (r.translate ⟨0, -((0 : Nat) : Int)⟩).board_slots,
        (bs d.y.toNat d.x.toNat).isLocked = false := by
      rw [rustomino_translate_zero]; exact hnl
    obtain ⟨bf, hrun, hbf⟩ := descend_go bs r n hy22 hfalse htrue fuel 0 bs bg
      (Nat.zero_le n) (by omega) (fun y _ x _ => rfl) hgrid0 hnl0
    rw [rustomino_translate_zero] at hrun
    rw [Nat.sub_zero] at hrun
    exact ⟨bf, hrun, hbf⟩
  · obtain ⟨g', hg'⟩ := set_board_slot_states_isSome r.board_slots bs .Empty hwf
    refine ⟨⟨g', some (r.translate ⟨0, -(n : Int)⟩), bg⟩, ?_, rfl⟩
    have e0 : RustrisBoard.hard_drop ⟨bs, some r, bg⟩
        = (get_hard_drop_translation bs r).bind fun delta =>
          (set_board_slot_states bs r.board_slots .Empty).bind fun ga =>
          some ⟨ga, some (r.translate delta), bg⟩ := rfl
    rw [e0, hdt, Option.some_bind, hg', Option.some_bind]

/-- Witness for the amended C3: on an empty board, a horizontal 4-cell
piece at row 5 descends 5 single-cell steps and the hard-drop search
returns the same translation. -/
theorem hard_drop_equals_can_fall_descent_witness :
    ∃ n : Nat,
      get_hard_drop_translation
        (fun _ _ => SlotState.Empty)
        ⟨.I, [⟨0, 0⟩, ⟨1, 0⟩, ⟨2, 0⟩, ⟨3, 0⟩], ⟨3, 5⟩⟩ = some ⟨0, -(n : Int)⟩
      ∧ (∀ fuel, n < fuel →
          ∃ bf, descend_by_can_fall
            ⟨fun _ _ => SlotState.Empty,
              some ⟨.I, [⟨0, 0⟩, ⟨1, 0⟩, ⟨2, 0⟩, ⟨3, 0⟩], ⟨3, 5⟩⟩, none⟩ fuel
            = some (bf, n)
          ∧ bf.current_rustomino
            = some (Rustomino.translate
                ⟨.I, [⟨0, 0⟩, ⟨1, 0⟩, ⟨2, 0⟩, ⟨3, 0⟩], ⟨3, 5⟩⟩ ⟨0, -(n : Int)⟩))
      ∧ (∀ j, 1 ≤ j → j ≤ n →
          coll_at (fun _ _ => SlotState.Empty)
            ⟨.I, [⟨0, 0⟩, ⟨1, 0⟩, ⟨2, 0⟩, ⟨3, 0⟩], ⟨3, 5⟩⟩ j = some false)
      ∧ coll_at (fun _ _ => SlotState.Empty)
          ⟨.I, [⟨0, 0⟩, ⟨1, 0⟩, ⟨2, 0⟩, ⟨3, 0⟩], ⟨3, 5⟩⟩ (n + 1) = some true
      ∧ (n = 0 ↔ check_collision (fun _ _ => SlotState.Empty)
          (Rustomino.translated
            ⟨.I, [⟨0, 0⟩, ⟨1, 0⟩, ⟨2, 0⟩, ⟨3, 0⟩], ⟨3, 5⟩⟩ DOWN_TRANSLATION)
          = some true)
      ∧ (∃ b2, RustrisBoard.hard_drop
            ⟨fun _ _ => SlotState.Empty,
              some ⟨.I, [⟨0, 0⟩, ⟨1, 0⟩, ⟨2, 0⟩, ⟨3, 0⟩], ⟨3, 5⟩⟩, none⟩ = some b2
          ∧ b2.current_rustomino
            = some (Rustomino.translate
                ⟨.I, [⟨0, 0⟩, ⟨1, 0⟩, ⟨2, 0⟩, ⟨3, 0⟩], ⟨3, 5⟩⟩ ⟨0, -(n : Int)⟩)) :=
  hard_drop_equals_can_fall_descent
    ⟨fun _ _ => SlotState.Empty,
      some ⟨.I, [⟨0, 0⟩, ⟨1, 0⟩, ⟨2, 0⟩, ⟨3, 0⟩], ⟨3, 5⟩⟩, none⟩
    ⟨.I, [⟨0, 0⟩, ⟨1, 0⟩, ⟨2, 0⟩, ⟨3, 0⟩], ⟨3, 5⟩⟩
    rfl (by decide) (by decide) (by decide)

theorem bag_fill_ne (sh : ShuffleOracle) (l : List RustominoType) (c : Nat)
    (h : l.isEmpty = false) : bag_fill sh ⟨l, c⟩ = ⟨l, c⟩ := by
  rw [bag_fill]
  show (if l.isEmpty = true then BagSt.mk (sh c) (c + 1) else ⟨l, c⟩) = ⟨l, c⟩
  rw [h]
  simp

theorem bag_draw_eq (sh : ShuffleOracle) (st : BagSt) :
    bag_draw sh st = ((bag_fill sh st).bag.getLast?,
      ⟨(bag_fill sh st).bag.dropLast, (bag_fill sh st).refills⟩) := rfl

theorem bag_machine_invariant (sh : ShuffleOracle) (hv : valid_shuffles sh) :
    ∀ n, (bag_draw_n sh n).2 = ⟨(sh (n / 7)).take (6 - n % 7), n / 7 + 1⟩
      ∧ bag_seq sh n = (sh (n / 7))[6 - n % 7]? := by
  have hlen : ∀ k, (sh k).length = 7 := fun k => (hv k).length_eq
  have hlast : ∀ (l : List RustominoType) (m : Nat), m ≤ l.length → 1 ≤ m →
      (l.take m).getLast? = l[m - 1]? := by
    intro l m h1 h2
    rw [List.getLast?_eq_getElem?, List.length_take, List.getElem?_take_of_lt (by omega)]
    congr 1
    omega
  have hdrop : ∀ (l : List RustominoType) (m : Nat), m ≤ l.length →
      (l.take m).dropLast = l.take (m - 1) := by
    intro l m h1
    rw [List.dropLast_eq_take, List.length_take, List.take_take]
    congr 1
    omega
  intro n
  induction n with
  | zero =>
    have e : bag_draw_n sh 0 = ((sh 0).getLast?, ⟨(sh 0).dropLast, 1⟩) := rfl
    rw [show (0 : Nat) / 7 = 0 from rfl, show (0 : Nat) % 7 = 0 from rfl, e]
    constructor
    · show BagSt.mk (sh 0).dropLast 1 = BagSt.mk ((sh 0).take (6 - 0)) (0 + 1)
      rw [List.dropLast_eq_take, hlen 0]
    · show (sh 0).getLast? = (sh 0)[6 - 0]?
      rw [List.getLast?_eq_getElem?, hlen 0]
  | succ n ihn =>
    have estep : bag_draw_n sh (n + 1) = bag_draw sh (bag_draw_n sh n).2 := rfl
    rw [bag_seq, estep, ihn.1, bag_draw_eq]
    by_cases hk : n % 7 < 6
    · have hne : ((sh (n / 7)).take (6 - n % 7)).isEmpty = false := by
        have hl : ((sh (n / 7)).take (6 - n % 7)).length = 6 - n % 7 := by
          rw [List.length_take, hlen]
          omega
        rcases hcase : (sh (n / 7)).take (6 - n % 7) with _ | ⟨a, l⟩
        · rw [hcase] at hl
          simp at hl
          omega
        · rfl
      rw [bag_fill_ne sh _ _ hne]
      have hdiv : (n + 1) / 7 = n / 7 := by omega
      have hmod : (n + 1) % 7 = n % 7 + 1 := by omega
      constructor
      · show BagSt.mk ((sh (n / 7)).take (6 - n % 7)).dropLast (n / 7 + 1) = _
        rw [hdrop _ _ (by rw [hlen]; omega), hdiv, hmod,
          show 6 - n % 7 - 1 = 6 - (n % 7 + 1) from by omega]
      · show ((sh (n / 7)).take (6 - n % 7)).getLast? = _
        rw [hlast _ _ (by rw [hlen]; omega) (by omega), hdiv, hmod,
          show 6 - n % 7 - 1 = 6 - (n % 7 + 1) from by omega]
    · have hk6 : n % 7 = 6 := by omega
      have hempty : (sh (n / 7)).take (6 - n % 7) = [] := by
        rw [hk6]
        rfl
      rw [hempty]
      rw [show bag_fill sh ⟨[], n / 7 + 1⟩ = ⟨sh (n / 7 + 1), n / 7 + 2⟩ from rfl]
      have hdiv : (n + 1) / 7 = n / 7 + 1 := by omega
      have hmod : (n + 1) % 7 = 0 := by omega
      constructor
      · show BagSt.mk (sh (n / 7 + 1)).dropLast (n / 7 + 2) = _
        rw [List.dropLast_eq_take, hlen, hdiv, hmod]
      · show (sh (n / 7 + 1)).getLast? = _
        rw [List.getLast?_eq_getElem?, hlen, hdiv, hmod]

theorem bag_seq_formula (sh : ShuffleOracle) (hv : valid_shuffles sh) (n : Nat) :
    bag_seq sh n = (sh (n / 7))[6 - n % 7]? :=
  (bag_machine_invariant sh hv n).2

/-- Claim C5, counterexample: with the first bag shuffled to
`[L, J, Z, S, T, O, I]` (drawn back-to-front, so draw 6 is `L`) and the
second to `[I, O, T, S, Z, J, L]` (draw 7 is `L`), the same type is
drawn twice in two consecutive draws — within a 7-draw window — so the
no-repeat-within-7 guarantee fails (and with the same oracle the type
`I` occurs at draws 0 and 13 only, so the 12-draw window 1..12 misses
it). -/
theorem bag_randomizer_claim_false : ¬ claim_c5_statement := by
  intro h
  have hv : valid_shuffles c5CexOracle := by
    intro k
    rw [c5CexOracle]
    by_cases hk : k = 0
    · rw [if_pos hk]; decide
    · rw [if_neg hk]; decide
  obtain ⟨h1, -⟩ := h c5CexOracle hv
  exact h1 6 7 .L (by omega) (by omega) (by decide) (by decide)

/-- Claim C5, amended: a bag of one of each of the 7 types is drawn
without replacement, so two draws from the same bag (equal draw index
divided by 7) never repeat a type; across a bag boundary a type can
repeat after as little as 1 draw, so the correct drought bound is:
every type appears at least once within every 13 consecutive draws
(a window of 13 always contains one complete bag); 12 does not
suffice. -/
theorem bag_randomizer_amended (sh : ShuffleOracle) (hv : valid_shuffles sh) :
    (∀ i j, i / 7 = j / 7 → i ≠ j → bag_seq sh i ≠ bag_seq sh j)
    ∧ (∀ i t, ∃ j, i ≤ j ∧ j < i + 13 ∧ bag_seq sh j = some t) := by
  have hlen : ∀ k, (sh k).length = 7 := fun k => (hv k).length_eq
  have hnodup : ∀ k, (sh k).Nodup := by
    intro k
    exact (hv k).nodup_iff.mpr (by decide)
  constructor
  · intro i j hdiv hij
    rw [bag_seq_formula sh hv i, bag_seq_formula sh hv j, hdiv]
    have hi : 6 - i % 7 < (sh (j / 7)).length := by rw [hlen]; omega
    have hj : 6 - j % 7 < (sh (j / 7)).length := by rw [hlen]; omega
    rw [List.getElem?_eq_getElem hi, List.getElem?_eq_getElem hj]
    intro hcon
    have heq := (List.Nodup.getElem_inj_iff (hnodup (j / 7))).mp
      (Option.some_inj.mp hcon)
    omega
  · intro i t
    have hmem : t ∈ sh ((i + 6) / 7) := by
      rw [(hv ((i + 6) / 7)).mem_iff]
      cases t <;> decide
    obtain ⟨idx, hidx, hget⟩ := List.mem_iff_getElem.mp hmem
    rw [hlen] at hidx
    refine ⟨7 * ((i + 6) / 7) + (6 - idx), by omega, by omega, ?_⟩
    rw [bag_seq_formula sh hv]
    rw [show (7 * ((i + 6) / 7) + (6 - idx)) / 7 = (i + 6) / 7 from by omega]
    rw [show 6 - (7 * ((i + 6) / 7) + (6 - idx)) % 7 = idx from by omega]
    rw [List.getElem?_eq_getElem (by rw [hlen]; omega), hget]

/-- Witness for the amended C5 at the concrete oracle of the
counterexample: draws 0 and 6 come from the same bag and differ, and
type `I` appears within the first 13 draws. -/
theorem bag_randomizer_amended_witness :
    bag_seq c5CexOracle 0 ≠ bag_seq c5CexOracle 6
    ∧ ∃ j, 0 ≤ j ∧ j < 0 + 13 ∧ bag_seq c5CexOracle j = some RustominoType.I := by
  have hv : valid_shuffles c5CexOracle := by
    intro k
    rw [c5CexOracle]
    by_cases hk : k = 0
    · rw [if_pos hk]; decide
    · rw [if_neg hk]; decide
  exact ⟨(bag_randomizer_amended c5CexOracle hv).1 0 6 (by decide) (by decide),
    (bag_randomizer_amended c5CexOracle hv).2 0 RustominoType.I⟩

theorem handle_completed_lines_mk (bs : Grid) (nx hr : Option Rustomino)
    (gs : GameState) (sc lvl : Nat) (bag : List RustominoType) (cl : Nat)
    (hu : Bool) (br : Nat) :
    RustrisGame.handle_completed_lines
      ⟨⟨bs, none, none⟩, nx, hr, gs, sc, lvl, bag, cl, hu, br⟩
    = if (clear_completed_lines_slots bs).2.isEmpty
      then some ⟨⟨bs, none, none⟩, nx, hr, gs, sc, lvl, bag, cl, hu, br⟩
      else RustrisGame.score_completed_lines
        ⟨⟨(clear_completed_lines_slots bs).1, none, none⟩, nx, hr, gs, sc, lvl, bag,
          cl + (clear_completed_lines_slots bs).2.length, hu, br⟩
        (clear_completed_lines_slots bs).2 := by
  rcases hcc : clear_completed_lines_slots bs with ⟨g', ls⟩
  rw [RustrisGame.handle_completed_lines, RustrisBoard.clear_completed_lines]
  rw [show (RustrisBoard.mk bs none none).slots = bs from rfl, hcc]
  rcases ls with _ | ⟨a, l⟩
  · rfl
  · rfl

/-- Claim C6: a lock that clears N lines adds exactly 100·L, 300·L,
500·L, 800·L points for N = 1, 2, 3, 4 at level L; N = 0 leaves the
session unchanged without calling the scorer; N ≥ 5 panics
(`score_completed_lines`'s catch-all arm); the cumulative cleared-line
counter grows by N and the level is untouched.  (At every lock site the
board's current and ghost rustomino are both `None`, the stated
hypotheses.) -/
theorem line_clear_scoring (s : RustrisGame)
    (hcur : s.board.current_rustomino = none)
    (hgh : s.board.ghost_rustomino = none) :
    ((clear_completed_lines_slots s.board.slots).2.length = 0 →
      s.handle_completed_lines = some s)
    ∧ ((clear_completed_lines_slots s.board.slots).2.length = 1 →
      ∃ s', s.handle_completed_lines = some s'
        ∧ s'.score = s.score + 100 * s.game_level
        ∧ s'.completed_lines = s.completed_lines + 1
        ∧ s'.game_level = s.game_level)
    ∧ ((clear_completed_lines_slots s.board.slots).2.length = 2 →
      ∃ s', s.handle_completed_lines = some s'
        ∧ s'.score = s.score + 300 * s.game_level
        ∧ s'.completed_lines = s.completed_lines + 2
        ∧ s'.game_level = s.game_level)
    ∧ ((clear_completed_lines_slots s.board.slots).2.length = 3 →
      ∃ s', s.handle_completed_lines = some s'
        ∧ s'.score = s.score + 500 * s.game_level
        ∧ s'.completed_lines = s.completed_lines + 3
        ∧ s'.game_level = s.game_level)
    ∧ ((clear_completed_lines_slots s.board.slots).2.length = 4 →
      ∃ s', s.handle_completed_lines = some s'
        ∧ s'.score = s.score + 800 * s.game_level
        ∧ s'.completed_lines = s.completed_lines + 4
        ∧ s'.game_level = s.game_level)
    ∧ (5 ≤ (clear_completed_lines_slots s.board.slots).2.length →
      s.handle_completed_lines = none) := by
  obtain ⟨⟨bs, bc, bg⟩, nx, hr, gs, sc, lvl, bag, cl, hu, br⟩ := s
  replace hcur : bc = none := hcur
  replace hgh : bg = none := hgh
  subst hcur
  subst hgh
  dsimp only
  rw [handle_completed_lines_mk]
  rcases hls : (clear_completed_lines_slots bs).2 with _ | ⟨a, l⟩
  · refine ⟨fun _ => rfl, ?_, ?_, ?_, ?_, ?_⟩ <;>
      · intro hcon
        simp only [List.length_nil] at hcon
        omega
  · rw [show (a :: l).isEmpty = false from rfl, if_neg (by simp)]
    refine ⟨?_, ?_, ?_, ?_, ?_, ?_⟩
    · intro hcon
      simp only [List.length_cons] at hcon
      omega
    · intro hlen
      have hl : l = [] := by
        simp only [List.length_cons] at hlen
        exact List.length_eq_zero.mp (by omega)
      subst hl
      exact ⟨_, rfl, rfl, rfl, rfl⟩
    · intro hlen
      obtain ⟨b, hl⟩ : ∃ b, l = [b] := by
        refine List.length_eq_one.mp ?_
        simp only [List.length_cons] at hlen
        omega
      subst hl
      exact ⟨_, rfl, rfl, rfl, rfl⟩
    · intro hlen
      obtain ⟨b, c, hl⟩ : ∃ b c, l = [b, c] := by
        refine List.length_eq_two.mp ?_
        simp only [List.length_cons] at hlen
        omega
      subst hl
      exact ⟨_, rfl, rfl, rfl, rfl⟩
    · intro hlen
      obtain ⟨b, c, d, hl⟩ : ∃ b c d, l = [b, c, d] := by
        refine List.length_eq_three.mp ?_
        simp only [List.length_cons] at hlen
        omega
      subst hl
      exact ⟨_, rfl, rfl, rfl, rfl⟩
    · intro hlen
      simp only [List.length_cons] at hlen
      rcases l with _ | ⟨b, l⟩
      · simp only [List.length_nil] at hlen; omega
      rcases l with _ | ⟨c, l⟩
      · simp only [List.length_nil, List.length_cons] at hlen; omega
      rcases l with _ | ⟨d, l⟩
      · simp only [List.length_nil, List.length_cons] at hlen; omega
      rcases l with _ | ⟨e, l⟩
      · simp only [List.length_nil, List.length_cons] at hlen; omega
      rfl

theorem hold_noop (sh : ShuffleOracle) (s : RustrisGame) (h : s.hold_used = true) :
    s.hold sh = some s := by
  rw [RustrisGame.hold, if_pos h]

theorem hold_sets_hold_used (sh : ShuffleOracle) (s s' : RustrisGame)
    (h : s.hold sh = some s') : s'.hold_used = true := by
  by_cases hu : s.hold_used
  · rw [hold_noop sh s hu] at h
    rw [← Option.some_inj.mp h]
    exact hu
  · rw [RustrisGame.hold, if_neg hu] at h
    simp only [Option.bind_eq_bind] at h
    rcases hheld : s.held_rustomino with _ | r
    · rcases hnext : s.next_rustomino with _ | r
      · simp only [hheld, hnext] at h
        exact Option.noConfusion h
      · simp only [hheld, hnext, Option.some_bind] at h
        obtain ⟨cur, -, h⟩ := Option.bind_eq_some.mp h
        obtain ⟨⟨b', ok⟩, -, h⟩ := Option.bind_eq_some.mp h
        rw [← Option.some_inj.mp h]
    · simp only [hheld, Option.some_bind] at h
      obtain ⟨cur, -, h⟩ := Option.bind_eq_some.mp h
      obtain ⟨⟨b', ok⟩, -, h⟩ := Option.bind_eq_some.mp h
      rw [← Option.some_inj.mp h]

theorem score_completed_lines_shape (s : RustrisGame) (ls : List Nat) (s' : RustrisGame)
    (h : s.score_completed_lines ls = some s') :
    ∃ pts, s' = { s with score := s.score + pts } := by
  rw [RustrisGame.score_completed_lines] at h
  rcases hn : ls.length with _ | ⟨_ | ⟨_ | ⟨_ | ⟨_ | m⟩⟩⟩⟩ <;> rw [hn] at h
  · exact Option.noConfusion h
  · exact ⟨_, (Option.some_inj.mp h).symm⟩
  · exact ⟨_, (Option.some_inj.mp h).symm⟩
  · exact ⟨_, (Option.some_inj.mp h).symm⟩
  · exact ⟨_, (Option.some_inj.mp h).symm⟩
  · exact Option.noConfusion h

theorem handle_completed_lines_outer (s s' : RustrisGame)
    (h : s.handle_completed_lines = some s') :
    s'.hold_used = s.hold_used ∧ s'.game_state = s.game_state := by
  rw [RustrisGame.handle_completed_lines] at h
  simp only [Option.bind_eq_bind] at h
  obtain ⟨⟨b', ls⟩, -, h⟩ := Option.bind_eq_some.mp h
  dsimp only at h
  by_cases hemp : ls.isEmpty
  · rw [if_pos hemp] at h
    rw [← Option.some_inj.mp h]
    exact ⟨rfl, rfl⟩
  · rw [if_neg hemp] at h
    obtain ⟨pts, rfl⟩ := score_completed_lines_shape _ _ _ h
    exact ⟨rfl, rfl⟩

theorem lock_clears_hold_used (s s' : RustrisGame) (h : s.lock = some s') :
    s'.hold_used = false := by
  rw [RustrisGame.lock] at h
  simp only [Option.bind_eq_bind] at h
  obtain ⟨b', -, h⟩ := Option.bind_eq_some.mp h
  rw [(handle_completed_lines_outer _ _ h).1]

theorem translate_shape (s : RustrisGame) (d : TranslationDirection) (s' : RustrisGame)
    (h : s.translate d = some s') : ∃ b', s' = { s with board := b' } := by
  rw [RustrisGame.translate] at h
  obtain ⟨p, -, hp⟩ := Option.map_eq_some'.mp h
  exact ⟨p.1, hp.symm⟩

theorem rotate_shape (s : RustrisGame) (d : RotationDirection) (s' : RustrisGame)
    (h : s.rotate d = some s') : ∃ b', s' = { s with board := b' } := by
  rw [RustrisGame.rotate] at h
  obtain ⟨p, -, hp⟩ := Option.map_eq_some'.mp h
  exact ⟨p.1, hp.symm⟩

theorem stepOp_preserves_hold_used (sh : ShuffleOracle) (op : GameOp) (s s' : RustrisGame)
    (hop : op ≠ GameOp.lockO) (h : stepOp sh op s = some s')
    (hu : s.hold_used = true) : s'.hold_used = true := by
  cases op with
  | holdO =>
    exact hold_sets_hold_used sh s s' h
  | lockO => exact absurd rfl hop
  | translateO d =>
    obtain ⟨b', rfl⟩ := translate_shape s d s' h
    exact hu
  | rotateO d =>
    obtain ⟨b', rfl⟩ := rotate_shape s d s' h
    exact hu

theorem runOps_preserves_hold_used (sh : ShuffleOracle) (ops : List GameOp) : ∀ s s',
    (∀ op ∈ ops, op ≠ GameOp.lockO) → runOps sh ops s = some s' →
    s.hold_used = true → s'.hold_used = true := by
  induction ops with
  | nil =>
    intro s s' _ h hu
    rw [runOps] at h
    rw [← Option.some_inj.mp h]
    exact hu
  | cons op rest ih =>
    intro s s' hops h hu
    rw [runOps] at h
    simp only [Option.bind_eq_bind] at h
    obtain ⟨s1, h1, h2⟩ := Option.bind_eq_some.mp h
    exact ih s1 s' (fun o ho => hops o (List.mem_cons_of_mem _ ho)) h2
      (stepOp_preserves_hold_used sh op s s1 (hops op (List.mem_cons_self _ _)) h1 hu)

/-- Claim C7: with `hold_used` set, a hold action returns the session —
board included — entirely unchanged; any hold that returns leaves
`hold_used` set; a lock clears it; and through any lock-free sequence of
session operations (hold, translate, rotate — soft drop, hard drop and
the gravity tick all perform a lock themselves) the flag stays set, so a
second hold before the next lock is a no-op: at most one hold takes
effect per lock cycle. -/
theorem hold_once_per_lock (sh : ShuffleOracle) (s : RustrisGame) :
    (s.hold_used = true → s.hold sh = some s)
    ∧ (∀ s', s.hold sh = some s' → s'.hold_used = true)
    ∧ (∀ s', s.lock = some s' → s'.hold_used = false)
    ∧ (∀ ops s', (∀ op ∈ ops, op ≠ GameOp.lockO) → runOps sh ops s = some s' →
        s.hold_used = true → s'.hold sh = some s') :=
  ⟨hold_noop sh s, fun s' h => hold_sets_hold_used sh s s' h,
   fun s' h => lock_clears_hold_used s s' h,
   fun ops s' hops hrun hu =>
     hold_noop sh s' (runOps_preserves_hold_used sh ops s s' hops hrun hu)⟩

/-- Witness for C7: a concrete session with `hold_used` set is returned
unchanged by a hold even after an intervening (lock-free) translation
request. -/
theorem hold_once_per_lock_witness :
    RustrisGame.hold (fun _ => [])
      ⟨⟨fun _ _ => SlotState.Empty, none, none⟩, none, none, GameState.Playing,
        0, 1, [], 0, true, 0⟩
    = some ⟨⟨fun _ _ => SlotState.Empty, none, none⟩, none, none, GameState.Playing,
        0, 1, [], 0, true, 0⟩ :=
  (hold_once_per_lock (fun _ => [])
      ⟨⟨fun _ _ => SlotState.Empty, none, none⟩, none, none, GameState.Playing,
        0, 1, [], 0, true, 0⟩).2.2.2
    [GameOp.translateO TranslationDirection.Left]
    ⟨⟨fun _ _ => SlotState.Empty, none, none⟩, none, none, GameState.Playing,
        0, 1, [], 0, true, 0⟩
    (by decide) rfl rfl

theorem get_next_rustomino_shape (sh : ShuffleOracle) (b0 : RustrisBoard)
    (nx hr : Option Rustomino) (gs : GameState) (sc lvl : Nat)
    (bag : List RustominoType) (cl : Nat) (hu : Bool) (br : Nat) :
    ∃ bag' nx' br',
      RustrisGame.get_next_rustomino sh ⟨b0, nx, hr, gs, sc, lvl, bag, cl, hu, br⟩
      = ⟨b0, nx', hr, gs, sc, lvl, bag', cl, hu, br'⟩ := by
  rw [RustrisGame.get_next_rustomino]
  rcases nx with _ | r
  · dsimp only
    rw [if_neg (by simp)]
    rw [RustrisGame.fill_rustomino_bag]
    dsimp only
    rcases bag with _ | ⟨t, bag⟩
    · rw [if_pos (show ([] : List RustominoType).isEmpty = true from rfl)]
      dsimp only
      rcases hl : (sh br).getLast? with _ | t
      · exact ⟨sh br, none, br + 1, rfl⟩
      · exact ⟨(sh br).dropLast, some (Rustomino.new t), br + 1, rfl⟩
    · rw [if_neg (by simp)]
      dsimp only
      rcases hl : (t :: bag).getLast? with _ | u
      · exact ⟨t :: bag, none, br, rfl⟩
      · exact ⟨(t :: bag).dropLast, some (Rustomino.new u), br, rfl⟩
  · dsimp only
    rw [if_pos (show (some r).isSome = true from rfl)]
    exact ⟨bag, some r, br, rfl⟩

theorem set_current_rustomino_eq (bs : Grid) (bc bg : Option Rustomino) (r : Rustomino) :
    RustrisBoard.set_current_rustomino ⟨bs, bc, bg⟩ r
    = (check_collision bs r.board_slots).bind fun coll =>
      (set_board_slot_states bs r.board_slots (.Occupied r.rustomino_type)).bind fun g' =>
      (RustrisBoard.update_ghost_rustomino ⟨g', some r, some r⟩ false).bind fun b2 =>
      some (b2, !coll) := rfl

theorem update_ghost_after_set (g : Grid) (r : Rustomino) :
    RustrisBoard.update_ghost_rustomino ⟨g, some r, some r⟩ false
    = (get_hard_drop_translation g r).bind fun drop_translation =>
      (ghost_write_pass g r.rustomino_type (r.translate drop_translation).board_slots).bind
        fun g2 =>
      some ⟨g2, some r, some (r.translate drop_translation)⟩ := rfl

theorem set_current_rustomino_spec (bs : Grid) (bc bg : Option Rustomino) (r : Rustomino)
    (hne : r.board_slots ≠ [])
    (hwf : ∀ c ∈ r.board_slots, in_grid c) :
    ∃ b' ok, RustrisBoard.set_current_rustomino ⟨bs, bc, bg⟩ r = some (b', ok)
      ∧ b'.current_rustomino = some r
      ∧ (∀ c ∈ r.board_slots, b'.slots c.y.toNat c.x.toNat
          = SlotState.Occupied r.rustomino_type)
      ∧ (ok = false ↔ ∃ c ∈ r.board_slots, (bs c.y.toNat c.x.toNat).isLocked = true)
      ∧ (∃ gh dy, b'.ghost_rustomino = some gh
          ∧ gh.rustomino_type = r.rustomino_type
          ∧ gh.blocks = r.blocks
          ∧ gh.translation = r.translation + ⟨0, dy⟩ ∧ dy ≤ 0) := by
  have hy22 : ∀ c ∈ r.board_slots, c.y < 22 := fun c hc => (hwf c hc).2.2.2
  have hcoll := check_collision_eq_any bs r.board_slots hy22
  obtain ⟨g', hg'⟩ := set_board_slot_states_isSome r.board_slots bs
    (.Occupied r.rustomino_type) hwf
  have hg'spec := set_board_slot_states_spec _ _ _ _ hg'
  have hocc : ∀ c ∈ r.board_slots,
      g' c.y.toNat c.x.toNat = SlotState.Occupied r.rustomino_type := by
    intro c hc
    rw [hg'spec.2, if_pos (show covers r.board_slots c.y.toNat c.x.toNat from
      ⟨c, hc, rfl, rfl⟩)]
  obtain ⟨n, hdt, -, -, hbound, -⟩ := hard_drop_char g' r hne hy22
  have hghcells : ∀ d ∈ (r.translate ⟨0, -(n : Int)⟩).board_slots, in_grid d := by
    intro d hd
    rw [translate_board_slots, translated_eq_board_slots_map] at hd
    obtain ⟨c, hc, rfl⟩ := List.mem_map.mp hd
    have h1 := hwf c hc
    have h2 := hbound c hc
    rw [in_grid] at h1
    show 0 ≤ c.x + 0 ∧ c.x + 0 < 10 ∧ 0 ≤ c.y + -(n : Int) ∧ c.y + -(n : Int) < 22
    omega
  obtain ⟨g2, hg2⟩ := ghost_write_pass_isSome
    (r.translate ⟨0, -(n : Int)⟩).board_slots g' r.rustomino_type hghcells
  have hg2spec := ghost_write_pass_spec _ _ _ _ hg2
  refine ⟨⟨g2, some r, some (r.translate ⟨0, -(n : Int)⟩)⟩,
    !(r.board_slots.any fun c =>
      decide (c.x < 0) || decide ((10 : Int) ≤ c.x) || decide (c.y < 0) ||
        (bs c.y.toNat c.x.toNat).isLocked), ?_, rfl, ?_, ?_, ?_⟩
  · rw [set_current_rustomino_eq, hcoll, Option.some_bind, hg', Option.some_bind,
      update_ghost_after_set, hdt, Option.some_bind, hg2, Option.some_bind,
      Option.some_bind]
  · intro c hc
    show g2 c.y.toNat c.x.toNat = SlotState.Occupied r.rustomino_type
    rw [(hg2spec c.y.toNat c.x.toNat).2 (by rw [hocc c hc]; rfl), hocc c hc]
  · constructor
    · intro hok
      have hA : (r.board_slots.any fun c =>
          decide (c.x < 0) || decide ((10 : Int) ≤ c.x) || decide (c.y < 0) ||
            (bs c.y.toNat c.x.toNat).isLocked) = true := by
        revert hok
        cases r.board_slots.any fun c =>
          decide (c.x < 0) || decide ((10 : Int) ≤ c.x) || decide (c.y < 0) ||
            (bs c.y.toNat c.x.toNat).isLocked
        · intro hcon
          exact absurd hcon (by simp)
        · intro _
          rfl
      rw [List.any_eq_true] at hA
      obtain ⟨c, hc, hp⟩ := hA
      refine ⟨c, hc, ?_⟩
      have hcw := hwf c hc
      rw [in_grid] at hcw
      simp only [Bool.or_eq_true, decide_eq_true_eq] at hp
      rcases hp with ((h1 | h2) | h3) | h4
      · omega
      · omega
      · omega
      · exact h4
    · rintro ⟨c, hc, hlocked⟩
      have hA : (r.board_slots.any fun c =>
          decide (c.x < 0) || decide ((10 : Int) ≤ c.x) || decide (c.y < 0) ||
            (bs c.y.toNat c.x.toNat).isLocked) = true := by
        rw [List.any_eq_true]
        exact ⟨c, hc, by rw [hlocked]; simp⟩
      rw [hA]
      rfl
  · exact ⟨r.translate ⟨0, -(n : Int)⟩, -(n : Int), rfl, rfl, rfl, rfl, by omega⟩

/-- Claim C8, counterexample: a piece whose cells stick out above the
22-row board (an O-piece anchored at rows 21/22) makes
`set_current_rustomino` panic inside `check_collision` (index out of
bounds) instead of placing the piece and returning a flag, so the
claim's "for every board and every piece ... unconditionally" fails. -/
theorem set_current_claim_false : ¬ claim_c8_statement := by
  intro h
  obtain ⟨b', ok, heq, -⟩ := h emptyBoard c8CexPiece
  rw [show RustrisBoard.set_current_rustomino emptyBoard c8CexPiece = none from rfl] at heq
  exact Option.noConfusion heq

/-- Claim C8, amended: for every board and every piece whose 4 cells all
lie inside the 10×22 grid, `set_current_rustomino` writes `Occupied`
into the grid at the piece's cells unconditionally, makes the piece the
active piece, recomputes the ghost (same type and offsets, translated
some cells straight down), and returns false iff some cell overlaps a
`Locked` slot of the pre-placement grid; on a false return the piece is
still placed.  A piece with a cell outside the grid instead panics. -/
theorem set_current_rustomino_amended (b : RustrisBoard) (r : Rustomino)
    (hne : r.board_slots ≠ [])
    (hwf : ∀ c ∈ r.board_slots, in_grid c) :
    ∃ b' ok, b.set_current_rustomino r = some (b', ok)
      ∧ b'.current_rustomino = some r
      ∧ (∀ c ∈ r.board_slots, b'.slots c.y.toNat c.x.toNat
          = SlotState.Occupied r.rustomino_type)
      ∧ (ok = false ↔ ∃ c ∈ r.board_slots, (b.slots c.y.toNat c.x.toNat).isLocked = true)
      ∧ (∃ gh dy, b'.ghost_rustomino = some gh
          ∧ gh.rustomino_type = r.rustomino_type
          ∧ gh.blocks = r.blocks
          ∧ gh.translation = r.translation + ⟨0, dy⟩ ∧ dy ≤ 0) := by
  obtain ⟨bs, bc, bg⟩ := b
  exact set_current_rustomino_spec bs bc bg r hne hwf

/-- Witness for the amended C8: an O-piece placed onto locked cells is
still placed and the call returns false. -/
theorem set_current_rustomino_amended_witness :
    ∃ b' ok, RustrisBoard.set_current_rustomino
        ⟨(fun y x => if y = 5 ∧ (x = 4 ∨ x = 5) then SlotState.Locked RustominoType.I
            else SlotState.Empty), none, none⟩
        ⟨RustominoType.O, [⟨0, 0⟩, ⟨1, 0⟩, ⟨0, 1⟩, ⟨1, 1⟩], ⟨4, 5⟩⟩ = some (b', ok)
      ∧ ok = false := by
  obtain ⟨b', ok, heq, -, -, hiff, -⟩ := set_current_rustomino_amended
    ⟨(fun y x => if y = 5 ∧ (x = 4 ∨ x = 5) then SlotState.Locked RustominoType.I
        else SlotState.Empty), none, none⟩
    ⟨RustominoType.O, [⟨0, 0⟩, ⟨1, 0⟩, ⟨0, 1⟩, ⟨1, 1⟩], ⟨4, 5⟩⟩
    (by decide) (by decide)
  exact ⟨b', ok, heq, hiff.mpr (by decide)⟩

/-- Claim C10: a hold that installs the held piece — or, when none is
held, the next piece — onto cells that overlap `Locked` cells discards
`set_current_rustomino`'s false return: the phase stays `Playing` and
the overlapping piece becomes the active piece.  Only the
`ready_for_next` spawn block of `update` reacts to the false return, by
transitioning to `GameOver` with the overlapping piece placed. -/
theorem spawn_failure_handling (sh : ShuffleOracle) (s : RustrisGame) (r cur : Rustomino) :
    (s.game_state = GameState.Playing → s.hold_used = false →
      (s.held_rustomino = some r
        ∨ s.held_rustomino = none ∧ s.next_rustomino = some r) →
      s.board.current_rustomino = some cur →
      r.board_slots ≠ [] → (∀ c ∈ r.board_slots, in_grid c) →
      (∃ c ∈ r.board_slots, (s.board.slots c.y.toNat c.x.toNat).isLocked = true) →
      ∃ s', s.hold sh = some s' ∧ s'.game_state = GameState.Playing
        ∧ s'.board.current_rustomino = some r)
    ∧ (s.board.current_rustomino = none → s.next_rustomino = some r →
      r.board_slots ≠ [] → (∀ c ∈ r.board_slots, in_grid c) →
      (∃ c ∈ r.board_slots, (s.board.slots c.y.toNat c.x.toNat).isLocked = true) →
      ∃ s', s.update_spawn_step sh = some s' ∧ s'.game_state = GameState.GameOver
        ∧ s'.board.current_rustomino = some r) := by
  obtain ⟨⟨bs, bc, bg⟩, nx, hrr, gs, sc, lvl, bag, cl, hu, br⟩ := s
  constructor
  · intro hgs hhu hheld hcur hne hwf hex
    replace hgs : gs = GameState.Playing := hgs
    replace hhu : hu = false := hhu
    replace hcur : bc = some cur := hcur
    replace hex : ∃ c ∈ r.board_slots, (bs c.y.toNat c.x.toNat).isLocked = true := hex
    subst hgs hhu hcur
    rcases hheld with hheld | ⟨hheld, hnx⟩
    · replace hheld : hrr = some r := hheld
      subst hheld
      rw [RustrisGame.hold, if_neg (by simp)]
      simp only [Option.bind_eq_bind, Option.some_bind]
      obtain ⟨bag', nx', br', hgn⟩ := get_next_rustomino_shape sh ⟨bs, some cur, bg⟩
        nx none GameState.Playing sc lvl bag cl false br
      rw [hgn]
      dsimp only
      simp only [Option.bind_eq_bind, Option.some_bind]
      obtain ⟨B, ok, hset, hcurB, -, hiff, -⟩ :=
        set_current_rustomino_spec bs none bg r hne hwf
      rw [hset, Option.some_bind]
      exact ⟨_, rfl, rfl, hcurB⟩
    · replace hheld : hrr = none := hheld
      replace hnx : nx = some r := hnx
      subst hheld hnx
      rw [RustrisGame.hold, if_neg (by simp)]
      simp only [Option.bind_eq_bind, Option.some_bind]
      obtain ⟨bag', nx', br', hgn⟩ := get_next_rustomino_shape sh ⟨bs, some cur, bg⟩
        none none GameState.Playing sc lvl bag cl false br
      rw [hgn]
      dsimp only
      simp only [Option.bind_eq_bind, Option.some_bind]
      obtain ⟨B, ok, hset, hcurB, -, hiff, -⟩ :=
        set_current_rustomino_spec bs none bg r hne hwf
      rw [hset, Option.some_bind]
      exact ⟨_, rfl, rfl, hcurB⟩
  · intro hcur hnx hne hwf hex
    replace hcur : bc = none := hcur
    replace hnx : nx = some r := hnx
    replace hex : ∃ c ∈ r.board_slots, (bs c.y.toNat c.x.toNat).isLocked = true := hex
    subst hcur hnx
    rw [RustrisGame.update_spawn_step,
      if_pos (show RustrisBoard.ready_for_next ⟨bs, none, bg⟩ = true from rfl)]
    simp only [Option.bind_eq_bind, Option.some_bind]
    obtain ⟨bag', nx', br', hgn⟩ := get_next_rustomino_shape sh ⟨bs, none, bg⟩
      none hrr gs sc lvl bag cl hu br
    rw [hgn]
    dsimp only
    obtain ⟨B, ok, hset, hcurB, -, hiff, -⟩ :=
      set_current_rustomino_spec bs none bg r hne hwf
    have hok : ok = false := hiff.mpr hex
    subst hok
    rw [hset, Option.some_bind]
    dsimp only
    rw [if_neg (by simp)]
    exact ⟨_, rfl, rfl, hcurB⟩

/-- Witness for C10: on a concrete board with two locked cells, a first
hold (nothing held yet, so the next O-piece is installed onto the
locked cells) keeps the phase `Playing` with the overlapping piece
active, and a blocked spawn of the same piece on the same grid moves
the phase to game over with the piece placed. -/
theorem spawn_failure_handling_witness :
    (∃ s', RustrisGame.hold (fun _ => [])
        ⟨⟨(fun y x => if y = 5 ∧ (x = 4 ∨ x = 5) then SlotState.Locked RustominoType.I
            else SlotState.Empty),
          some ⟨RustominoType.I, [⟨3, 20⟩, ⟨4, 20⟩, ⟨5, 20⟩, ⟨6, 20⟩], ⟨0, 0⟩⟩, none⟩,
          some ⟨RustominoType.O, [⟨0, 0⟩, ⟨1, 0⟩, ⟨0, 1⟩, ⟨1, 1⟩], ⟨4, 5⟩⟩,
          none, GameState.Playing, 0, 1, [], 0, false, 0⟩ = some s'
      ∧ s'.game_state = GameState.Playing
      ∧ s'.board.current_rustomino
        = some ⟨RustominoType.O, [⟨0, 0⟩, ⟨1, 0⟩, ⟨0, 1⟩, ⟨1, 1⟩], ⟨4, 5⟩⟩)
    ∧ (∃ s', RustrisGame.update_spawn_step (fun _ => [])
        ⟨⟨(fun y x => if y = 5 ∧ (x = 4 ∨ x = 5) then SlotState.Locked RustominoType.I
            else SlotState.Empty), none, none⟩,
          some ⟨RustominoType.O, [⟨0, 0⟩, ⟨1, 0⟩, ⟨0, 1⟩, ⟨1, 1⟩], ⟨4, 5⟩⟩,
          none, GameState.Playing, 0, 1, [], 0, false, 0⟩ = some s'
      ∧ s'.game_state = GameState.GameOver
      ∧ s'.board.current_rustomino
        = some ⟨RustominoType.O, [⟨0, 0⟩, ⟨1, 0⟩, ⟨0, 1⟩, ⟨1, 1⟩], ⟨4, 5⟩⟩) :=
  ⟨(spawn_failure_handling (fun _ => [])
      ⟨⟨(fun y x => if y = 5 ∧ (x = 4 ∨ x = 5) then SlotState.Locked RustominoType.I
          else SlotState.Empty),
        some ⟨RustominoType.I, [⟨3, 20⟩, ⟨4, 20⟩, ⟨5, 20⟩, ⟨6, 20⟩], ⟨0, 0⟩⟩, none⟩,
        some ⟨RustominoType.O, [⟨0, 0⟩, ⟨1, 0⟩, ⟨0, 1⟩, ⟨1, 1⟩], ⟨4, 5⟩⟩,
        none, GameState.Playing, 0, 1, [], 0, false, 0⟩
      ⟨RustominoType.O, [⟨0, 0⟩, ⟨1, 0⟩, ⟨0, 1⟩, ⟨1, 1⟩], ⟨4, 5⟩⟩
      ⟨RustominoType.I, [⟨3, 20⟩, ⟨4, 20⟩, ⟨5, 20⟩, ⟨6, 20⟩], ⟨0, 0⟩⟩).1
    rfl rfl (Or.inr ⟨rfl, rfl⟩) rfl (by decide) (by decide) (by decide),
  (spawn_failure_handling (fun _ => [])
      ⟨⟨(fun y x => if y = 5 ∧ (x = 4 ∨ x = 5) then SlotState.Locked RustominoType.I
          else SlotState.Empty), none, none⟩,
        some ⟨RustominoType.O, [⟨0, 0⟩, ⟨1, 0⟩, ⟨0, 1⟩, ⟨1, 1⟩], ⟨4, 5⟩⟩,
        none, GameState.Playing, 0, 1, [], 0, false, 0⟩
      ⟨RustominoType.O, [⟨0, 0⟩, ⟨1, 0⟩, ⟨0, 1⟩, ⟨1, 1⟩], ⟨4, 5⟩⟩
      ⟨RustominoType.O, [⟨0, 0⟩, ⟨1, 0⟩, ⟨0, 1⟩, ⟨1, 1⟩], ⟨4, 5⟩⟩).2
    rfl rfl (by decide) (by decide) (by decide)⟩

theorem in_grid_coords_inj (c d : IVec2) (hc : in_grid c) (hd : in_grid d)
    (hy : c.y.toNat = d.y.toNat) (hx : c.x.toNat = d.x.toNat) : c = d := by
  rw [in_grid] at hc hd
  rcases c with ⟨cx, cy⟩
  rcases d with ⟨dx, dy⟩
  simp only [IVec2.mk.injEq]
  simp only at hc hd hy hx
  omega

theorem hard_drop_go_shape (g : Grid) (r : Rustomino) :
    ∀ fuel k v, hard_drop_go g r fuel k = some v → ∃ m : Nat, v = ⟨0, -(m : Int)⟩ := by
  intro fuel
  induction fuel with
  | zero => intro k v h; exact Option.noConfusion h
  | succ fuel ih =>
    intro k v h
    simp only [hard_drop_go] at h
    rcases hc : check_collision g (r.translated ⟨0, -((k : Int) + 1)⟩) with _ | b
    · rw [hc] at h; exact Option.noConfusion h
    · rw [hc] at h
      cases b
      · exact ih (k + 1) v h
      · exact ⟨k, (Option.some_inj.mp h).symm⟩

theorem get_hard_drop_translation_shape (g : Grid) (r : Rustomino) (v : IVec2)
    (h : get_hard_drop_translation g r = some v) : ∃ m : Nat, v = ⟨0, -(m : Int)⟩ := by
  rw [get_hard_drop_translation] at h
  rcases hc : check_collision g (r.translated DOWN_TRANSLATION) with _ | b
  · rw [hc] at h; exact Option.noConfusion h
  · rw [hc] at h
    cases b
    · exact hard_drop_go_shape g r _ _ _ h
    · refine ⟨0, ?_⟩
      rw [← Option.some_inj.mp h]
      rw [show (-((0 : Nat) : Int)) = 0 from by norm_num]

theorem update_ghost_true_eq (g : Grid) (cur gh : Rustomino) :
    RustrisBoard.update_ghost_rustomino ⟨g, some cur, some gh⟩ true
    = (get_hard_drop_translation g cur).bind fun dt =>
      (ghost_clear_pass g gh.board_slots).bind fun g1 =>
      (ghost_write_pass g1 gh.rustomino_type
        (Rustomino.translate
          { gh with blocks := cur.blocks, translation := cur.translation } dt).board_slots).bind
        fun g2 =>
      some ⟨g2, some cur, some (Rustomino.translate
        { gh with blocks := cur.blocks, translation := cur.translation } dt)⟩ := rfl

theorem commit_pipeline_spec (bs : Grid) (bg : Option Rustomino) (cur cur' : Rustomino)
    (b' : RustrisBoard) (res : Bool)
    (h : ((set_board_slot_states bs cur.board_slots .Empty).bind fun g1 =>
          (set_board_slot_states g1 cur'.board_slots
            (.Occupied cur.rustomino_type)).bind fun g2 =>
          (RustrisBoard.update_ghost_rustomino ⟨g2, some cur', bg⟩ true).bind fun b2 =>
          some (b2, true)) = some (b', res)) :
    res = true
    ∧ b'.current_rustomino = some cur'
    ∧ (∀ c ∈ cur'.board_slots,
        b'.slots c.y.toNat c.x.toNat = SlotState.Occupied cur.rustomino_type)
    ∧ (∀ c ∈ cur.board_slots, c ∉ cur'.board_slots →
        b'.slots c.y.toNat c.x.toNat = SlotState.Empty
        ∨ ∃ t, b'.slots c.y.toNat c.x.toNat = SlotState.Ghost t)
    ∧ (bg = none → b'.ghost_rustomino = none)
    ∧ (∀ gh, bg = some gh → ∃ gh', b'.ghost_rustomino = some gh'
        ∧ gh'.rustomino_type = gh.rustomino_type
        ∧ gh'.blocks = cur'.blocks
        ∧ ∃ dy, gh'.translation = cur'.translation + ⟨0, dy⟩ ∧ dy ≤ 0) := by
  obtain ⟨g1, hg1, h⟩ := Option.bind_eq_some.mp h
  obtain ⟨g2, hg2, h⟩ := Option.bind_eq_some.mp h
  obtain ⟨b2, hug, h⟩ := Option.bind_eq_some.mp h
  have hpair := Option.some_inj.mp h
  have hbeq : b2 = b' := congrArg Prod.fst hpair
  have hreq : true = res := congrArg Prod.snd hpair
  subst hbeq
  subst hreq
  have hg1spec := set_board_slot_states_spec _ _ _ _ hg1
  have hg2spec := set_board_slot_states_spec _ _ _ _ hg2
  have hg2occ : ∀ c ∈ cur'.board_slots,
      g2 c.y.toNat c.x.toNat = SlotState.Occupied cur.rustomino_type := by
    intro c hc
    rw [hg2spec.2, if_pos (show covers cur'.board_slots c.y.toNat c.x.toNat from
      ⟨c, hc, rfl, rfl⟩)]
  have hg2old : ∀ c ∈ cur.board_slots, c ∉ cur'.board_slots →
      g2 c.y.toNat c.x.toNat = SlotState.Empty := by
    intro c hc hnc
    have hnotcov : ¬ covers cur'.board_slots c.y.toNat c.x.toNat := by
      rintro ⟨d, hd, hdy, hdx⟩
      exact hnc (in_grid_coords_inj c d (hg1spec.1 c hc) (hg2spec.1 d hd)
        hdy.symm hdx.symm ▸ hd)
    rw [hg2spec.2, if_neg hnotcov, hg1spec.2,
      if_pos (show covers cur.board_slots c.y.toNat c.x.toNat from ⟨c, hc, rfl, rfl⟩)]
  rcases bg with _ | gh
  · have hb2 : (⟨g2, some cur', none⟩ : RustrisBoard) = b2 := Option.some_inj.mp hug
    rw [← hb2]
    refine ⟨rfl, rfl, hg2occ, ?_, fun _ => rfl, ?_⟩
    · intro c hc hnc
      exact Or.inl (hg2old c hc hnc)
    · intro gh hcon
      exact Option.noConfusion hcon
  · rw [update_ghost_true_eq] at hug
    obtain ⟨dt, hdt, hug⟩ := Option.bind_eq_some.mp hug
    obtain ⟨g3, hg3, hug⟩ := Option.bind_eq_some.mp hug
    obtain ⟨g4, hg4, hug⟩ := Option.bind_eq_some.mp hug
    have hb2 := Option.some_inj.mp hug
    rw [← hb2]
    have hg3spec := ghost_clear_pass_spec _ _ _ hg3
    have hg4spec := ghost_write_pass_spec _ _ _ _ hg4
    obtain ⟨m, rfl⟩ := get_hard_drop_translation_shape g2 cur' dt hdt
    refine ⟨rfl, rfl, ?_, ?_, ?_, ?_⟩
    · intro c hc
      have h2 := hg2occ c hc
      have h3 := (hg3spec c.y.toNat c.x.toNat).2 (by rw [h2]; rfl)
      have h4 := (hg4spec c.y.toNat c.x.toNat).2 (by rw [h3, h2]; rfl)
      show g4 c.y.toNat c.x.toNat = _
      rw [h4, h3, h2]
    · intro c hc hnc
      have h2 := hg2old c hc hnc
      have h3 : g3 c.y.toNat c.x.toNat = SlotState.Empty := by
        rcases (hg3spec c.y.toNat c.x.toNat).1 with h' | h'
        · rw [h', h2]
        · exact h'
      show g4 c.y.toNat c.x.toNat = SlotState.Empty
          ∨ ∃ t, g4 c.y.toNat c.x.toNat = SlotState.Ghost t
      rcases (hg4spec c.y.toNat c.x.toNat).1 with h' | h'
      · exact Or.inl (by rw [h', h3])
      · exact Or.inr ⟨_, h'⟩
    · intro hcon
      exact Option.noConfusion hcon
    · intro gh0 hgh0
      have : gh0 = gh := by
        have := Option.some_inj.mp hgh0.symm
        rw [this]
      subst this
      exact ⟨_, rfl, rfl, rfl, -(m : Int), rfl, by omega⟩

/-- C9: for every board and direction, a `rotate_current` or
`translate_current` call that returns `false` leaves the whole board —
grid, active piece and ghost — unchanged, and does so exactly because
there is no active piece or the candidate cells collide; a call that
returns `true` commits the pure transform to the active piece, writes
the four candidate cells `Occupied`, clears the vacated old cells
(left `Empty`, or `Ghost` where the recomputed ghost lands), and
recomputes the ghost piece from the new geometry and a fresh hard-drop
translation. -/
theorem move_rejection_and_commit (b : RustrisBoard) :
    (∀ (d : RotationDirection) (b' : RustrisBoard) (res : Bool),
      b.rotate_current d = some (b', res) →
      (res = false → b' = b
        ∧ (b.current_rustomino = none
           ∨ ∃ cur, b.current_rustomino = some cur
             ∧ check_collision b.slots (cur.rotated d) = some true))
      ∧ (res = true →
          ∃ cur, b.current_rustomino = some cur
          ∧ check_collision b.slots (cur.rotated d) = some false
          ∧ b'.current_rustomino = some (cur.rotate d)
          ∧ (cur.rotate d).board_slots = cur.rotated d
          ∧ (∀ c ∈ (cur.rotate d).board_slots,
              b'.slots c.y.toNat c.x.toNat = SlotState.Occupied cur.rustomino_type)
          ∧ (∀ c ∈ cur.board_slots, c ∉ (cur.rotate d).board_slots →
              b'.slots c.y.toNat c.x.toNat = SlotState.Empty
              ∨ ∃ t, b'.slots c.y.toNat c.x.toNat = SlotState.Ghost t)
          ∧ (b.ghost_rustomino = none → b'.ghost_rustomino = none)
          ∧ (∀ gh, b.ghost_rustomino = some gh →
              ∃ gh', b'.ghost_rustomino = some gh'
              ∧ gh'.rustomino_type = gh.rustomino_type
              ∧ gh'.blocks = (cur.rotate d).blocks
              ∧ ∃ dy, gh'.translation = (cur.rotate d).translation + ⟨0, dy⟩ ∧ dy ≤ 0)))
    ∧ (∀ (dir : TranslationDirection) (b' : RustrisBoard) (res : Bool),
      b.translate_current dir = some (b', res) →
      (res = false → b' = b
        ∧ (b.current_rustomino = none
           ∨ ∃ cur, b.current_rustomino = some cur
             ∧ check_collision b.slots (cur.translated dir.get_translation)
               = some true))
      ∧ (res = true →
          ∃ cur, b.current_rustomino = some cur
          ∧ check_collision b.slots (cur.translated dir.get_translation) = some false
          ∧ b'.current_rustomino = some (cur.translate dir.get_translation)
          ∧ (cur.translate dir.get_translation).board_slots
              = cur.translated dir.get_translation
          ∧ (∀ c ∈ (cur.translate dir.get_translation).board_slots,
              b'.slots c.y.toNat c.x.toNat = SlotState.Occupied cur.rustomino_type)
          ∧ (∀ c ∈ cur.board_slots, c ∉ (cur.translate dir.get_translation).board_slots →
              b'.slots c.y.toNat c.x.toNat = SlotState.Empty
              ∨ ∃ t, b'.slots c.y.toNat c.x.toNat = SlotState.Ghost t)
          ∧ (b.ghost_rustomino = none → b'.ghost_rustomino = none)
          ∧ (∀ gh, b.ghost_rustomino = some gh →
              ∃ gh', b'.ghost_rustomino = some gh'
              ∧ gh'.rustomino_type = gh.rustomino_type
              ∧ gh'.blocks = (cur.translate dir.get_translation).blocks
              ∧ ∃ dy, gh'.translation
                  = (cur.translate dir.get_translation).translation + ⟨0, dy⟩
                ∧ dy ≤ 0))) := by
  obtain ⟨bs, bc, bg⟩ := b
  constructor
  · intro d b' res h
    rcases bc with _ | cur
    · have hp := Option.some_inj.mp h
      have hbeq : (⟨bs, none, bg⟩ : RustrisBoard) = b' := congrArg Prod.fst hp
      have hreq : false = res := congrArg Prod.snd hp
      subst hbeq
      subst hreq
      exact ⟨fun _ => ⟨rfl, Or.inl rfl⟩, fun hr => Bool.noConfusion hr⟩
    · have he : RustrisBoard.rotate_current ⟨bs, some cur, bg⟩ d
          = (check_collision bs (cur.rotated d)).bind (fun coll =>
            if coll then some (⟨bs, some cur, bg⟩, false)
            else ((set_board_slot_states bs cur.board_slots .Empty).bind fun g1 =>
              (set_board_slot_states g1 (cur.rotate d).board_slots
                (.Occupied cur.rustomino_type)).bind fun g2 =>
              (RustrisBoard.update_ghost_rustomino ⟨g2, some (cur.rotate d), bg⟩
                true).bind fun b2 =>
              some (b2, true))) := rfl
      rw [he] at h
      obtain ⟨coll, hcoll, h⟩ := Option.bind_eq_some.mp h
      rcases coll
      · rw [if_neg Bool.false_ne_true] at h
        have hc := commit_pipeline_spec bs bg cur (cur.rotate d) b' res h
        obtain ⟨hres, hcur', hocc, hold, hgn, hgs⟩ := hc
        subst hres
        refine ⟨fun hf => Bool.noConfusion hf, fun _ => ?_⟩
        exact ⟨cur, rfl, hcoll, hcur', rotate_board_slots cur d, hocc, hold, hgn, hgs⟩
      · rw [if_pos rfl] at h
        have hp := Option.some_inj.mp h
        have hbeq : (⟨bs, some cur, bg⟩ : RustrisBoard) = b' := congrArg Prod.fst hp
        have hreq : false = res := congrArg Prod.snd hp
        subst hbeq
        subst hreq
        exact ⟨fun _ => ⟨rfl, Or.inr ⟨cur, rfl, hcoll⟩⟩, fun hr => Bool.noConfusion hr⟩
  · intro dir b' res h
    rcases bc with _ | cur
    · have hp := Option.some_inj.mp h
      have hbeq : (⟨bs, none, bg⟩ : RustrisBoard) = b' := congrArg Prod.fst hp
      have hreq : false = res := congrArg Prod.snd hp
      subst hbeq
      subst hreq
      exact ⟨fun _ => ⟨rfl, Or.inl rfl⟩, fun hr => Bool.noConfusion hr⟩
    · have he : RustrisBoard.translate_current ⟨bs, some cur, bg⟩ dir
          = (check_collision bs (cur.translated dir.get_translation)).bind (fun coll =>
            if coll then some (⟨bs, some cur, bg⟩, false)
            else ((set_board_slot_states bs cur.board_slots .Empty).bind fun g1 =>
              (set_board_slot_states g1
                (cur.translate dir.get_translation).board_slots
                (.Occupied cur.rustomino_type)).bind fun g2 =>
              (RustrisBoard.update_ghost_rustomino
                ⟨g2, some (cur.translate dir.get_translation), bg⟩ true).bind fun b2 =>
              some (b2, true))) := rfl
      rw [he] at h
      obtain ⟨coll, hcoll, h⟩ := Option.bind_eq_some.mp h
      rcases coll
      · rw [if_neg Bool.false_ne_true] at h
        have hc := commit_pipeline_spec bs bg cur (cur.translate dir.get_translation)
          b' res h
        obtain ⟨hres, hcur', hocc, hold, hgn, hgs⟩ := hc
        subst hres
        refine ⟨fun hf => Bool.noConfusion hf, fun _ => ?_⟩
        exact ⟨cur, rfl, hcoll, hcur', translate_board_slots cur dir.get_translation,
          hocc, hold, hgn, hgs⟩
      · rw [if_pos rfl] at h
        have hp := Option.some_inj.mp h
        have hbeq : (⟨bs, some cur, bg⟩ : RustrisBoard) = b' := congrArg Prod.fst hp
        have hreq : false = res := congrArg Prod.snd hp
        subst hbeq
        subst hreq
        exact ⟨fun _ => ⟨rfl, Or.inr ⟨cur, rfl, hcoll⟩⟩, fun hr => Bool.noConfusion hr⟩

/-- C9 witness: on the witness board the clockwise rotation is refused
(`some (board, false)`), and the claim theorem then yields that the
board is unchanged. -/
theorem move_rejection_and_commit_witness :
    RustrisBoard.rotate_current c9WitnessBoard RotationDirection.Cw
      = some (c9WitnessBoard, false)
    ∧ c9WitnessBoard = c9WitnessBoard := by
  refine ⟨rfl, ?_⟩
  exact (((move_rejection_and_commit c9WitnessBoard).1 RotationDirection.Cw
    c9WitnessBoard false rfl).1 rfl).1

/-- C6 witness: a session whose grid has exactly row 0 complete, at
level 1 with score 0, gains 100 points and one completed line. -/
theorem line_clear_scoring_witness :
    ∃ s', RustrisGame.handle_completed_lines
      ⟨⟨fun y _ => if y = 0 then SlotState.Locked RustominoType.L else SlotState.Empty,
        none, none⟩, none, none, GameState.Playing, 0, 1, [], 0, false, 0⟩ = some s'
      ∧ s'.score = 0 + 100 * 1
      ∧ s'.completed_lines = 0 + 1
      ∧ s'.game_level = 1 :=
  (line_clear_scoring
    ⟨⟨fun y _ => if y = 0 then SlotState.Locked RustominoType.L else SlotState.Empty,
      none, none⟩, none, none, GameState.Playing, 0, 1, [], 0, false, 0⟩
    rfl rfl).2.1 (by decide)
